import Mathlib

/-!
Verification of the AP-Lang quiz generator against its specification.

The Python sources are shallowly embedded: pure algorithms become Lean
functions, dictionaries become insertion-ordered association lists, and
every call to `random` is replaced by a value read off an explicit oracle
(`DistTape`, `SelTape`, ...) so that theorems quantify over all possible
random outcomes (the support of each Python draw is exactly the set of
values the oracle can produce).  LLM calls are likewise replaced by
oracle-supplied response strings; the parsing of those strings is embedded
from the source.
-/

set_option maxHeartbeats 2000000
set_option maxRecDepth 4000

/-! ## Association-list helpers (Python `dict` with insertion order) -/

/-- First-occurrence lookup, i.e. Python `d.get(k)` (dict keys are unique;
on the lists we build, keys are unique as well). -/
def alFind {α : Type} : List (String × α) → String → Option α
  | [], _ => none
  | (k, v) :: rest, key => if k = key then some v else alFind rest key

/-- Python `d[k] = v`: overwrite in place, or append a fresh key. -/
def alSet {α : Type} : List (String × α) → String → α → List (String × α)
  | [], key, v => [(key, v)]
  | (k, w) :: rest, key, v =>
    if k = key then (key, v) :: rest else (k, w) :: alSet rest key v

/-- Python `d[k] = d.get(k, 0) + n` (the source writes this as
`if std not in d: d[std] = 0` followed by `d[std] += n`). -/
def alAdd (l : List (String × Nat)) (k : String) (n : Nat) : List (String × Nat) :=
  alSet l k ((alFind l k).getD 0 + n)

/-- Sum of all values of the dictionary. -/
def alSum (l : List (String × Nat)) : Nat := (l.map (·.2)).sum

/-! ## Question Distributor (src/main.py, `QuizGenerator.distribute_questions`,
lines 683-945) -/

/-- Per-tier `{easy,medium,hard}` question counts for one standard. -/
structure Tri where
  easy : Nat
  medium : Nat
  hard : Nat
deriving Repr, DecidableEq

/-- Total questions held by one standard across the three tiers. -/
def triTotal (t : Tri) : Nat := t.easy + t.medium + t.hard

/-- Total of a whole distribution result. -/
def resultTotal (r : List (String × Tri)) : Nat := (r.map (fun p => triTotal p.2)).sum

/-- (min,max) ranges for the three tiers, from `config.DIFFICULTY_LEVELS`. -/
structure TierRanges where
  easyMin : Nat
  easyMax : Nat
  mediumMin : Nat
  mediumMax : Nat
  hardMin : Nat
  hardMax : Nat

/-- `config.DIFFICULTY_LEVELS` (src/config.py lines 45-49); the source reads
it via `.get(difficulty, DIFFICULTY_LEVELS[1])`, hence the default branch. -/
def DIFFICULTY_LEVELS (d : Nat) : TierRanges :=
  if d = 1 then ⟨2, 5, 2, 5, 1, 2⟩
  else if d = 2 then ⟨2, 3, 2, 5, 2, 4⟩
  else if d = 3 then ⟨1, 2, 2, 4, 2, 6⟩
  else ⟨2, 5, 2, 5, 1, 2⟩

/-- Random oracle for `distribute_questions`.  Each field stands for one
`random.*` call site; a weighted/uniform choice from a list of length `n`
is modelled as the element at the oracle value `mod n` (every index is in
the support of the Python draw, since all weights are positive). -/
structure DistTape where
  rEasy : Nat
  rMedium : Nat
  pick : Nat → Nat
  even : Nat → Nat
  tie : Nat → Nat → Nat

/-- Step 1 of `distribute_questions` (lines 705-757): tier sizing.  The
Python scaling `int(easy_min * (nq / min_total))` is written as the exact
natural division `easy_min * nq / min_total`; for every reachable value
(`min_total ∈ {5,6}`, `nq < min_total`, factors ≤ 2) the double-precision
expression and the exact one truncate identically.  Subtractions that can
go negative in Python are computed in `Int`; `num_hard` is the remainder
`nq - num_easy - num_medium`, which is shown non-negative in
`tierCounts_le` below, so the final `Nat` subtraction is exact. -/
def drawCount (lo : Nat) (hi : Int) (cap r : Nat) : Nat :=
  if hi < (lo : Int) then min lo cap
  else if hi = (lo : Int) then lo
  else lo + r % (hi.toNat - lo + 1)

def tierCounts (nq difficulty rE rM : Nat) : Nat × Nat × Nat :=
  let dr := DIFFICULTY_LEVELS difficulty
  let minTotal := dr.easyMin + dr.mediumMin + dr.hardMin
  let eMin := if nq < minTotal then max 1 (dr.easyMin * nq / minTotal) else dr.easyMin
  let mMin := if nq < minTotal then max 1 (dr.mediumMin * nq / minTotal) else dr.mediumMin
  let hMin := if nq < minTotal then max 1 (dr.hardMin * nq / minTotal) else dr.hardMin
  let maxEasy : Int := min (dr.easyMax : Int) ((nq : Int) - (mMin : Int) - (hMin : Int))
  let numEasy := drawCount eMin maxEasy nq rE
  let remaining := nq - numEasy
  let maxMedium : Int := min (dr.mediumMax : Int) ((remaining : Int) - (hMin : Int))
  let numMedium := drawCount mMin maxMedium remaining rM
  (numEasy, numMedium, nq - numEasy - numMedium)

/-- Per-standard floor (lines 766-776). -/
def minQuestionsPerLessonStandard (n nq : Nat) : Nat :=
  if n = 0 then 0 else if n = 1 then min 3 nq else min 2 (nq / n)

/-- Minimum-quota assignment loop (lines 778-785): each lesson standard in
turn receives `min(minQ, questions_left)`, stopping when the budget is
exhausted. -/
def assignMinimums (minQ : Nat) : List String → List (String × Nat) → Nat →
    List (String × Nat) × Nat
  | [], qps, left => (qps, left)
  | s :: ss, qps, left =>
    if left = 0 then (qps, left)
    else
      let q := min minQ left
      assignMinimums minQ ss (alSet qps s q) (left - q)

/-- Cap per standard (line 829). -/
def maxPerStandard (nq : Nat) : Nat := max 3 (nq / 4)

/-- Weighted-random distribution loop (lines 806-831), recursing on the
remaining budget.  The weighted `random.choices` over the priority list is
modelled by an oracle index; a standard reaching the cap is removed
(first occurrence, Python `list.remove`). -/
def whileDistribute (nq : Nat) (t : DistTape) :
    Nat → List (String × Nat) → List String → Nat → List (String × Nat) × Nat
  | 0, qps, _, _ => (qps, 0)
  | left + 1, qps, pri, k =>
    match pri with
    | [] => (qps, left + 1)
    | p :: ps =>
      let std := if ps = [] then p else (p :: ps).getD (t.pick k % (p :: ps).length) p
      let qps2 := alAdd qps std 1
      let pri2 :=
        if maxPerStandard nq ≤ (alFind qps2 std).getD 0 then (p :: ps).erase std
        else p :: ps
      whileDistribute nq t left qps2 pri2 (k + 1)

/-- Leftover distribution (lines 834-840): uniform choice among the fixed
list of standards already holding an entry. -/
def evenDistribute (t : DistTape) (allStds : List String) :
    Nat → List (String × Nat) → Nat → List (String × Nat)
  | 0, qps, _ => qps
  | left + 1, qps, k =>
    match allStds with
    | [] => qps
    | a :: rest =>
      let std := (a :: rest).getD (t.even k % (a :: rest).length) a
      evenDistribute t (a :: rest) left (alAdd qps std 1) (k + 1)

/-- Tier fill for a lesson standard (lines 855-872): hard, then medium,
then easy, each capped by the standard's count and the tier leftovers. -/
def allocHardFirst (c H M E : Nat) : Tri × Nat × Nat × Nat :=
  let h := min c H
  let c1 := c - h
  let m := min c1 M
  let c2 := c1 - m
  let e := min c2 E
  (⟨e, m, h⟩, H - h, M - m, E - e)

/-- Tier fill for a non-lesson standard (lines 881-898): easy, medium, hard. -/
def allocEasyFirst (c H M E : Nat) : Tri × Nat × Nat × Nat :=
  let e := min c E
  let c1 := c - e
  let m := min c1 M
  let c2 := c1 - m
  let h := min c2 H
  (⟨e, m, h⟩, H - h, M - m, E - e)

/-- Pass over the lesson standards (lines 847-872). -/
def lessonPass (qps : List (String × Nat)) :
    List String → List (String × Tri) → Nat → Nat → Nat →
    List (String × Tri) × Nat × Nat × Nat
  | [], res, H, M, E => (res, H, M, E)
  | s :: ss, res, H, M, E =>
    match alFind qps s with
    | none => lessonPass qps ss res H M E
    | some c =>
      let a := allocHardFirst c H M E
      lessonPass qps ss (alSet res s a.1) a.2.1 a.2.2.1 a.2.2.2

/-- Pass over the remaining standards of the dictionary (lines 874-898). -/
def otherPass (lessonStds : List String) :
    List (String × Nat) → List (String × Tri) → Nat → Nat → Nat →
    List (String × Tri) × Nat × Nat × Nat
  | [], res, H, M, E => (res, H, M, E)
  | (s, c) :: rest, res, H, M, E =>
    if s ∈ lessonStds then otherPass lessonStds rest res H M E
    else
      let a := allocEasyFirst c H M E
      otherPass lessonStds rest (alSet res s a.1) a.2.1 a.2.2.1 a.2.2.2

/-- Tier selector: 0 = easy, 1 = medium, otherwise hard (the Python loop
iterates the dict `{"easy": _, "medium": _, "hard": _}` in that order). -/
def triGet (t : Tri) : Nat → Nat
  | 0 => t.easy
  | 1 => t.medium
  | _ => t.hard

/-- `result[std][diff] += 1` for the selected tier. -/
def triBump (t : Tri) : Nat → Tri
  | 0 => { t with easy := t.easy + 1 }
  | 1 => { t with medium := t.medium + 1 }
  | _ => { t with hard := t.hard + 1 }

/-- The minimum count of tier `i` over the result (Python scans with
`float('inf')`; an empty result leaves no eligible standard). -/
def minTierValue (res : List (String × Tri)) (i : Nat) : Nat :=
  ((res.map (fun p => triGet p.2 i)).min?).getD 0

/-- Standards holding the fewest questions of tier `i`, in dict order. -/
def eligibleStds (res : List (String × Tri)) (i : Nat) : List String :=
  (res.filter (fun p => triGet p.2 i = minTierValue res i)).map (·.1)

/-- In-place `+= 1` on the entry of key `s` (key is always present). -/
def bumpAt : List (String × Tri) → String → Nat → List (String × Tri)
  | [], _, _ => []
  | (k, t) :: rest, s, i =>
    if k = s then (k, triBump t i) :: rest else (k, t) :: bumpAt rest s i

/-- Leftover-tier redistribution (lines 900-935): one unit at a time to a
random standard among those with the fewest questions of that tier. -/
def redistributeTier (t : DistTape) (i : Nat) :
    Nat → List (String × Tri) → Nat → List (String × Tri)
  | 0, res, _ => res
  | cnt + 1, res, k =>
    match eligibleStds res i with
    | [] => res
    | e :: es =>
      let std := (e :: es).getD (t.tie i k % (e :: es).length) e
      redistributeTier t i cnt (bumpAt res std i) (k + 1)

/-- Step 2 of `distribute_questions` (lines 761-840): per-standard counts. -/
def questionsPerStandard (nq : Nat) (lessonStandards allStandards : List String)
    (t : DistTape) : List (String × Nat) :=
  let minQ := minQuestionsPerLessonStandard lessonStandards.length nq
  let am := assignMinimums minQ lessonStandards [] nq
  let pri := lessonStandards ++ allStandards.filter (fun s => s ∉ lessonStandards)
  let wd := whileDistribute nq t am.2 am.1 pri 0
  evenDistribute t (wd.1.map (·.1)) wd.2 wd.1 0

/-- Steps 3-4 of `distribute_questions` (lines 842-935): tier assignment and
leftover redistribution. -/
def assignTiers (lessonStandards : List String) (qps : List (String × Nat))
    (numEasy numMedium numHard : Nat) (t : DistTape) : List (String × Tri) :=
  let lp := lessonPass qps lessonStandards [] numHard numMedium numEasy
  let op := otherPass lessonStandards qps lp.1 lp.2.1 lp.2.2.1 lp.2.2.2
  let r1 := redistributeTier t 0 op.2.2.2 op.1 0
  let r2 := redistributeTier t 1 op.2.2.1 r1 0
  redistributeTier t 2 op.2.1 r2 0

/-- `QuizGenerator.distribute_questions` (src/main.py lines 683-945). -/
def distributeQuestions (nq difficulty : Nat)
    (lessonStandards allStandards : List String) (t : DistTape) :
    List (String × Tri) :=
  let tc := tierCounts nq difficulty t.rEasy t.rMedium
  let qps := questionsPerStandard nq lessonStandards allStandards t
  assignTiers lessonStandards qps tc.1 tc.2.1 tc.2.2 t

/-- An all-zeroes random tape, used for concrete evaluations. -/
def zeroTape : DistTape := ⟨0, 0, fun _ => 0, fun _ => 0, fun _ _ => 0⟩

/-! ## Curriculum order (src/main.py, `get_previous_standards`, lines
1170-1222) -/

/-- One lesson record as loaded from `lang_lessons.json`; only the
`standards` field matters to `get_previous_standards`.  It is modelled as
the comma-separated text the loader splits and trims (the code also
accepts an already-split list, normalised to the same token list). -/
structure Lesson where
  name : String
  standards : String

/-- Python `str.strip` whitespace (ASCII set; the data uses no exotic
whitespace). -/
def isSpaceChar (c : Char) : Bool :=
  c = ' ' ∨ c = '\t' ∨ c = '\n' ∨ c = '\r' ∨ c = '\x0b' ∨ c = '\x0c'

/-- Strip leading and trailing whitespace (Python `strip`). -/
def trimChars (cs : List Char) : List Char :=
  ((cs.dropWhile isSpaceChar).reverse.dropWhile isSpaceChar).reverse

/-- Python `s.split(',')`: split at every comma, keeping empty pieces. -/
def splitOnComma : List Char → List (List Char)
  | [] => [[]]
  | c :: rest =>
    if c = ',' then [] :: splitOnComma rest
    else
      match splitOnComma rest with
      | [] => [[c]]
      | g :: gs => (c :: g) :: gs

/-- Python `[std.strip() for std in standards_str.split(',') if std.strip()]`. -/
def splitStandards (s : String) : List String :=
  ((splitOnComma s.data).map (fun cs => String.mk (trimChars cs))).filter (fun x => x ≠ "")

/-- The token stream of the whole curriculum, lessons in file order, each
lesson's standards in list order (the two nested loops of the source). -/
def curriculumTokens (lessons : List Lesson) : List String :=
  lessons.flatMap (fun l => splitStandards l.standards)

/-- First-appearance deduplication step (`if std not in all_standards:
all_standards.append(std)`). -/
def dedupStep (acc : List String) (std : String) : List String :=
  if std ∈ acc then acc else acc ++ [std]

/-- All standards in first-appearance order: the spec's curriculum order. -/
def curriculumOrder (lessons : List Lesson) : List String :=
  (curriculumTokens lessons).foldl dedupStep []

/-- One scan step of `get_previous_standards`: extend the first-appearance
list and record the position of the target standard when (and only when)
it is first inserted. -/
def scanStep (stdId : String) (st : List String × Option Nat) (std : String) :
    List String × Option Nat :=
  if std ∈ st.1 then st
  else
    ((st.1 ++ [std]), if std = stdId then some ((st.1 ++ [std]).length - 1) else st.2)

/-- `QuizGenerator.get_previous_standards` (src/main.py lines 1170-1222). -/
def getPreviousStandards (lessons : List Lesson) (stdId : String) : List String :=
  if stdId = "" then []
  else
    let scan := (curriculumTokens lessons).foldl (scanStep stdId) ([], none)
    match scan.2 with
    | none => []
    | some pos => scan.1.take pos ++ [stdId]

/-- Concrete curriculum fixture for witnesses. -/
def lessonsEx : List Lesson := [⟨"L1", "A, B"⟩, ⟨"L2", "B,C"⟩]

/-! ## Passage selection (src/main.py, `select_passage`, lines 586-681, and
`_check_for_writing_examples`, lines 1224-1250) -/

/-- A passage record (the fields consulted by selection; a record missing
`id` in the JSON is modelled with `id = ""`, matching the truthiness tests
in the source). -/
structure Passage where
  id : String
  title : String
  author : String
  type : String
  text : String
deriving Repr, DecidableEq

/-- An example question: selection consults only its `type` field, which
may be absent (`none`). -/
structure ExampleQ where
  etype : Option String
deriving Repr, DecidableEq

/-- The read-only state `select_passage` consults:
`self.passages_by_standard` and `self.examples_by_standard_and_difficulty`. -/
structure SelEnv where
  passagesByStandard : List (String × List Passage)
  examplesByStdDiff : List ((String × String) × List ExampleQ)

/-- `self.passages_by_standard.get(std, [])`. -/
def passagesFor (env : SelEnv) (std : String) : List Passage :=
  (alFind env.passagesByStandard std).getD []

/-- `self.examples_by_standard_and_difficulty.get((std, diff), [])`. -/
def examplesFor (env : SelEnv) (std diff : String) : List ExampleQ :=
  (env.examplesByStdDiff.lookup (std, diff)).getD []

/-- `QuizGenerator._check_for_writing_examples` (lines 1224-1250). -/
def hasWritingExamples (env : SelEnv) (stdId : String) : Bool :=
  if stdId = "" then false
  else
    ["1", "2", "3"].any (fun d =>
      (examplesFor env stdId d).any (fun ex => ex.etype = some "writing"))

/-- Random oracle for one `select_passage` call: one index per
`random.choice` call site (common pool, common non-Draft pool, single
pool, single non-Draft pool). -/
structure SelTape where
  c1 : Nat
  c2 : Nat
  c3 : Nat
  c4 : Nat

/-- The single-standard branch of `select_passage` (lines 655-681). -/
def selectPassageSingle (env : SelEnv) (stdId : String) (t : SelTape) :
    Option Passage :=
  match passagesFor env stdId with
  | [] => none
  | p :: ps =>
    let selected := (p :: ps).getD (t.c3 % (p :: ps).length) p
    if selected.type = "Draft" then
      if hasWritingExamples env stdId then some selected
      else
        match (p :: ps).filter (fun q => q.type ≠ "Draft") with
        | [] => none
        | q :: qs => some ((q :: qs).getD (t.c4 % (q :: qs).length) q)
    else some selected

/-- The dict comprehension `{p["id"]: p for p in passages if p["id"]}`:
later duplicates of an id overwrite earlier ones, so lookup is last-wins
over the id-truthy entries. -/
def passageMapFind (passages : List Passage) (pid : String) : Option Passage :=
  ((passages.filter (fun p => p.id ≠ "")).reverse).find? (fun p => p.id = pid)

/-- Keys of that dict in insertion order (first occurrence of each id). -/
def passageMapKeys (passages : List Passage) : List String :=
  ((passages.filter (fun p => p.id ≠ "")).map (fun p => p.id)).foldl dedupStep []

/-- One step of the id-set intersection loop (lines 613-625): a standard
with no passages empties the set (and the loop breaks, which intersection
with the empty set models exactly). -/
def intersectIds (env : SelEnv) (acc : List String) (std : String) : List String :=
  if passagesFor env std = [] then []
  else acc.filter (fun pid => (passagesFor env std).any (fun p => p.id ≠ "" && p.id = pid))

/-- The list branch of `select_passage` (lines 596-654).  Python iterates
the intersection as a `set`, whose order is arbitrary; the embedding keeps
first-standard insertion order — the random choice is oracle-driven, so
the set of reachable outcomes is unchanged. -/
def selectPassageList (env : SelEnv) (stds : List String) (t : SelTape) :
    Option Passage :=
  match stds with
  | [] => none
  | first :: rest =>
    match passagesFor env first with
    | [] => none
    | _ :: _ =>
      let commonIds := rest.foldl (intersectIds env) (passageMapKeys (passagesFor env first))
      if commonIds = [] then selectPassageSingle env first t
      else
        match commonIds.filterMap (fun pid => passageMapFind (passagesFor env first) pid) with
        | [] => selectPassageSingle env first t
        | p :: ps =>
          let selected := (p :: ps).getD (t.c1 % (p :: ps).length) p
          if selected.type = "Draft" then
            if hasWritingExamples env first then some selected
            else
              match (p :: ps).filter (fun q => q.type ≠ "Draft") with
              | [] => selectPassageSingle env first t
              | q :: qs => some ((q :: qs).getD (t.c2 % (q :: qs).length) q)
          else some selected

/-- A Draft-typed passage shared by standards A and B (fixture). -/
def draftP : Passage := ⟨"p1", "T", "Auth", "Draft", "txt"⟩

/-- Fixture: A and B share the single Draft passage; A has a writing
example, B has none. -/
def envC3 : SelEnv :=
  { passagesByStandard := [("A", [draftP]), ("B", [draftP])],
    examplesByStdDiff := [(("A", "1"), [⟨some "writing"⟩])] }

/-- Fixture: a standard whose only passage is Draft and which has no
writing examples. -/
def envC3b : SelEnv :=
  { passagesByStandard := [("A", [draftP])], examplesByStdDiff := [] }

/-! ## JSON values and `json.loads` (used by the response parsers) -/

/-- A JSON value.  Numbers: `num n` is an integral value (ints, and floats
whose fraction is zero, which Python compares equal to ints); `numFrac t`
is a non-integral number carrying its truncation toward zero — the only
facts the embedded code ever consults about a number are `int(x)` and its
comparisons with 1, which the truncation determines. -/
inductive Json where
  | null
  | bool (b : Bool)
  | num (n : Int)
  | numFrac (trunc : Int)
  | str (s : String)
  | arr (elems : List Json)
  | obj (fields : List (String × Json))

/-- JSON whitespace. -/
def isJsonWs (c : Char) : Bool := c = ' ' ∨ c = '\t' ∨ c = '\n' ∨ c = '\r'

def skipWs : List Char → List Char
  | [] => []
  | c :: rest => if isJsonWs c then skipWs rest else c :: rest

def hexVal (c : Char) : Option Nat :=
  if '0' ≤ c ∧ c ≤ '9' then some (c.toNat - 48)
  else if 'a' ≤ c ∧ c ≤ 'f' then some (c.toNat - 87)
  else if 'A' ≤ c ∧ c ≤ 'F' then some (c.toNat - 55)
  else none

/-- Parse the body of a JSON string (after the opening quote), handling
escapes; unescaped control characters are rejected (strict `json.loads`). -/
def parseJsonStringBody : Nat → List Char → Option (List Char × List Char)
  | 0, _ => none
  | _ + 1, [] => none
  | fuel + 1, c :: rest =>
    if c = '"' then some ([], rest)
    else if c = '\\' then
      match rest with
      | [] => none
      | e :: rest2 =>
        let dec : Option (Char × List Char) :=
          if e = '"' then some ('"', rest2)
          else if e = '\\' then some ('\\', rest2)
          else if e = '/' then some ('/', rest2)
          else if e = 'b' then some ('\x08', rest2)
          else if e = 'f' then some ('\x0c', rest2)
          else if e = 'n' then some ('\n', rest2)
          else if e = 'r' then some ('\r', rest2)
          else if e = 't' then some ('\t', rest2)
          else if e = 'u' then
            match rest2 with
            | h1 :: h2 :: h3 :: h4 :: rest3 =>
              match hexVal h1, hexVal h2, hexVal h3, hexVal h4 with
              | some a, some b, some c2, some d =>
                some (Char.ofNat (((a * 16 + b) * 16 + c2) * 16 + d), rest3)
              | _, _, _, _ => none
            | _ => none
          else none
        match dec with
        | none => none
        | some (ch, rest3) =>
          match parseJsonStringBody fuel rest3 with
          | none => none
          | some (cs, rest4) => some (ch :: cs, rest4)
    else if c.toNat < 32 then none
    else
      match parseJsonStringBody fuel rest with
      | none => none
      | some (cs, rest2) => some (c :: cs, rest2)

/-- Leading decimal digits. -/
def takeDigits : List Char → List Char × List Char
  | [] => ([], [])
  | c :: rest =>
    if '0' ≤ c ∧ c ≤ '9' then
      match takeDigits rest with
      | (ds, r) => (c :: ds, r)
    else ([], c :: rest)

def digitsToNat (ds : List Char) : Nat :=
  ds.foldl (fun acc c => acc * 10 + (c.toNat - 48)) 0

/-- Parse a JSON number exactly: mantissa and decimal exponent give either
an integral `num` or a `numFrac` with truncation toward zero. -/
def parseJsonNumber (cs : List Char) : Option (Json × List Char) :=
  let signed : Bool × List Char :=
    match cs with
    | '-' :: r => (true, r)
    | _ => (false, cs)
  match takeDigits signed.2 with
  | ([], _) => none
  | (ds, r1) =>
    let withFrac : Option (List Char × List Char) :=
      match r1 with
      | '.' :: rr =>
        match takeDigits rr with
        | ([], _) => none
        | (fds, r2) => some (fds, r2)
      | _ => some ([], r1)
    match withFrac with
    | none => none
    | some (fds, r2) =>
      let withExp : Option (Int × List Char) :=
        match r2 with
        | 'e' :: rr =>
          match rr with
          | '-' :: rr2 =>
            match takeDigits rr2 with
            | ([], _) => none
            | (eds, r3) => some (-(digitsToNat eds : Int), r3)
          | '+' :: rr2 =>
            match takeDigits rr2 with
            | ([], _) => none
            | (eds, r3) => some ((digitsToNat eds : Int), r3)
          | _ =>
            match takeDigits rr with
            | ([], _) => none
            | (eds, r3) => some ((digitsToNat eds : Int), r3)
        | 'E' :: rr =>
          match rr with
          | '-' :: rr2 =>
            match takeDigits rr2 with
            | ([], _) => none
            | (eds, r3) => some (-(digitsToNat eds : Int), r3)
          | '+' :: rr2 =>
            match takeDigits rr2 with
            | ([], _) => none
            | (eds, r3) => some ((digitsToNat eds : Int), r3)
          | _ =>
            match takeDigits rr with
            | ([], _) => none
            | (eds, r3) => some ((digitsToNat eds : Int), r3)
        | _ => some (0, r2)
      match withExp with
      | none => none
      | some (ex, r3) =>
        let m : Nat := digitsToNat (ds ++ fds)
        let shift : Int := ex - (fds.length : Int)
        let sign : Int := if signed.1 then -1 else 1
        if 0 ≤ shift then
          some (.num (sign * (m : Int) * ((10 : Int) ^ shift.toNat)), r3)
        else
          let p : Nat := 10 ^ ((-shift).toNat)
          if m % p = 0 then some (.num (sign * ((m / p : Nat) : Int)), r3)
          else some (.numFrac (sign * ((m / p : Nat) : Int)), r3)

mutual

def parseJsonValue : Nat → List Char → Option (Json × List Char)
  | 0, _ => none
  | fuel + 1, cs =>
    match skipWs cs with
    | [] => none
    | c :: rest =>
      if c = '"' then
        match parseJsonStringBody (rest.length + 1) rest with
        | some (s, r) => some (.str (String.mk s), r)
        | none => none
      else if c = 't' then
        if rest.take 3 = ['r', 'u', 'e'] then some (.bool true, rest.drop 3) else none
      else if c = 'f' then
        if rest.take 4 = ['a', 'l', 's', 'e'] then some (.bool false, rest.drop 4) else none
      else if c = 'n' then
        if rest.take 3 = ['u', 'l', 'l'] then some (.null, rest.drop 3) else none
      else if c = '\x7b' then
        match skipWs rest with
        | '\x7d' :: r2 => some (.obj [], r2)
        | r2 => parseJsonMembers fuel r2
      else if c = '[' then
        match skipWs rest with
        | ']' :: r2 => some (.arr [], r2)
        | r2 => parseJsonItems fuel r2
      else parseJsonNumber (c :: rest)

def parseJsonMembers : Nat → List Char → Option (Json × List Char)
  | 0, _ => none
  | fuel + 1, cs =>
    match skipWs cs with
    | '"' :: rest =>
      match parseJsonStringBody (rest.length + 1) rest with
      | none => none
      | some (k, r1) =>
        match skipWs r1 with
        | ':' :: r2 =>
          match parseJsonValue fuel r2 with
          | none => none
          | some (v, r3) =>
            match skipWs r3 with
            | ',' :: r4 =>
              match parseJsonMembers fuel r4 with
              | some (.obj fields, r5) => some (.obj ((String.mk k, v) :: fields), r5)
              | _ => none
            | '\x7d' :: r4 => some (.obj [(String.mk k, v)], r4)
            | _ => none
        | _ => none
    | _ => none

def parseJsonItems : Nat → List Char → Option (Json × List Char)
  | 0, _ => none
  | fuel + 1, cs =>
    match parseJsonValue fuel cs with
    | none => none
    | some (v, r1) =>
      match skipWs r1 with
      | ',' :: r2 =>
        match parseJsonItems fuel r2 with
        | some (.arr elems, r3) => some (.arr (v :: elems), r3)
        | _ => none
      | ']' :: r2 => some (.arr [v], r2)
      | _ => none

end

/-- Python `json.loads`: a complete parse of the whole string (with
surrounding whitespace allowed). -/
def jsonLoads (cs : List Char) : Option Json :=
  match parseJsonValue (2 * cs.length + 4) cs with
  | none => none
  | some (v, rest) => if skipWs rest = [] then some v else none

/-- Dict lookup with Python overwrite semantics: the last occurrence of a
duplicated key wins. -/
def objGet (fields : List (String × Json)) (k : String) : Option Json :=
  (fields.reverse.find? (fun p => p.1 = k)).map (·.2)

def objHas (fields : List (String × Json)) (k : String) : Bool :=
  fields.any (fun p => p.1 = k)

def objGetStr (fields : List (String × Json)) (k : String) : Option String :=
  match objGet fields k with
  | some (.str s) => some s
  | _ => none

/-! ## Scanners for the regular expressions used by the response parsers -/

/-- The backtick character (written by code to keep fence markers out of
the source text). -/
def btick : Char := Char.ofNat 96

def bt3 : List Char := [btick, btick, btick]

/-- regex `\s` (Python `re` whitespace). -/
def isRegexWs (c : Char) : Bool :=
  c = ' ' ∨ c = '\t' ∨ c = '\n' ∨ c = '\r' ∨ c = '\x0b' ∨ c = '\x0c'

def skipRegexWs : List Char → List Char
  | [] => []
  | c :: rest => if isRegexWs c then skipRegexWs rest else c :: rest

def isPrefixChars : List Char → List Char → Bool
  | [], _ => true
  | _ :: _, [] => false
  | p :: ps, c :: cs => p = c && isPrefixChars ps cs

/-- Lazy scan for the earliest `\}` followed by `\s*`+fence; returns the
capture tail (including the brace) and the remainder after the fence. -/
def braceLazyClose : Nat → List Char → Option (List Char × List Char)
  | 0, _ => none
  | _ + 1, [] => none
  | fuel + 1, c :: rest =>
    if c = '\x7d' ∧ isPrefixChars bt3 (skipRegexWs rest) then
      some ([c], (skipRegexWs rest).drop 3)
    else
      match braceLazyClose fuel rest with
      | none => none
      | some (content, r) => some (c :: content, r)

/-- Match `(?:json)?\s*(\{[\s\S]*?\})\s*`+fence at a position just after
an opening fence; `(?:json)?` is greedy with backtracking. -/
def matchFenceBrace (fuel : Nat) (s : List Char) : Option (List Char × List Char) :=
  let tryFrom : List Char → Option (List Char × List Char) := fun s2 =>
    match skipRegexWs s2 with
    | c :: rest =>
      if c = '\x7b' then
        match braceLazyClose fuel rest with
        | some (content, r) => some ('\x7b' :: content, r)
        | none => none
      else none
    | [] => none
  if isPrefixChars ['j', 's', 'o', 'n'] s then
    match tryFrom (s.drop 4) with
    | some x => some x
    | none => tryFrom s
  else tryFrom s

/-- `re.findall` for the fenced-JSON-object pattern of
`parse_claude_response` (src/main.py line 1768). -/
def findFenceBlocksBrace : Nat → List Char → List (List Char)
  | 0, _ => []
  | _ + 1, [] => []
  | fuel + 1, c :: rest =>
    if isPrefixChars bt3 (c :: rest) then
      match matchFenceBrace fuel ((c :: rest).drop 3) with
      | some (capture, r) => capture :: findFenceBlocksBrace fuel r
      | none => findFenceBlocksBrace fuel rest
    else findFenceBlocksBrace fuel rest

/-- Lazy scan for the earliest position where `\s*`+fence matches; the
capture is everything before it. -/
def anyLazyClose : Nat → List Char → Option (List Char × List Char)
  | 0, _ => none
  | fuel + 1, s =>
    if isPrefixChars bt3 (skipRegexWs s) then some ([], (skipRegexWs s).drop 3)
    else
      match s with
      | [] => none
      | c :: rest =>
        match anyLazyClose fuel rest with
        | none => none
        | some (content, r) => some (c :: content, r)

/-- Match `(?:json)?\s*([\s\S]*?)\s*`+fence just after an opening fence
(the brace-free pattern of `_extract_improved_question` and the QC
response parsers). -/
def matchFenceAny (fuel : Nat) (s : List Char) : Option (List Char × List Char) :=
  let tryFrom : List Char → Option (List Char × List Char) := fun s2 =>
    anyLazyClose fuel (skipRegexWs s2)
  if isPrefixChars ['j', 's', 'o', 'n'] s then
    match tryFrom (s.drop 4) with
    | some x => some x
    | none => tryFrom s
  else tryFrom s

/-- `re.findall` for the brace-free fenced pattern. -/
def findFenceBlocksAny : Nat → List Char → List (List Char)
  | 0, _ => []
  | _ + 1, [] => []
  | fuel + 1, c :: rest =>
    if isPrefixChars bt3 (c :: rest) then
      match matchFenceAny fuel ((c :: rest).drop 3) with
      | some (capture, r) => capture :: findFenceBlocksAny fuel r
      | none => findFenceBlocksAny fuel rest
    else findFenceBlocksAny fuel rest

/-- Split at the first occurrence of `pat`: returns the part before and
the part after the pattern. -/
def splitAtSub (pat : List Char) : List Char → Option (List Char × List Char)
  | [] => if pat = [] then some ([], []) else none
  | c :: rest =>
    if isPrefixChars pat (c :: rest) then some ([], (c :: rest).drop pat.length)
    else
      match splitAtSub pat rest with
      | none => none
      | some (before, after) => some (c :: before, after)

def containsSub (pat s : List Char) : Bool := (splitAtSub pat s).isSome

/-- `low.find(pat)` (Python `str.find`, `-1` modelled as `none`). -/
def indexOfSub (pat s : List Char) : Option Nat :=
  (splitAtSub pat s).map (fun p => p.1.length)

/-- `re.search(r"<answer>([\s\S]*?)</answer>", response)`: first opening
tag, then the earliest closing tag. -/
def answerTagContent (s : List Char) : Option (List Char) :=
  match splitAtSub "<answer>".data s with
  | none => none
  | some (_, rest) =>
    match splitAtSub "</answer>".data rest with
    | none => none
    | some (content, _) => some content

/-- The run of characters up to the next `"` (which must exist). -/
def takeUntilQuote : List Char → Option (List Char × List Char)
  | [] => none
  | c :: rest =>
    if c = '"' then some ([], rest)
    else
      match takeUntilQuote rest with
      | none => none
      | some (content, r) => some (c :: content, r)

/-- `re.search(r"\"score\":\s*(\d+)", response)`. -/
def findScoreRegex : List Char → Option Nat
  | [] => none
  | c :: rest =>
    (if isPrefixChars "\"score\":".data (c :: rest) then
      match takeDigits (skipRegexWs ((c :: rest).drop 8)) with
      | ([], _) => none
      | (ds, _) => some (digitsToNat ds)
    else none).orElse (fun _ => findScoreRegex rest)

/-- `re.search(r"\"reasoning\":\s*\"([^\"]*)\"", response)`. -/
def findReasoningRegex : List Char → Option (List Char)
  | [] => none
  | c :: rest =>
    (if isPrefixChars "\"reasoning\":".data (c :: rest) then
      match skipRegexWs ((c :: rest).drop 12) with
      | '"' :: r2 =>
        match takeUntilQuote r2 with
        | some (content, _) => some content
        | none => none
      | _ => none
    else none).orElse (fun _ => findReasoningRegex rest)

/-- `re.search('"name"\s*:\s*"([^"]*)"', response)` for one field name
(the third parsing tier of `parse_claude_response`). -/
def findFieldRegex (name : List Char) : List Char → Option (List Char)
  | [] => none
  | c :: rest =>
    (if isPrefixChars ('"' :: name ++ ['"']) (c :: rest) then
      match skipRegexWs ((c :: rest).drop (name.length + 2)) with
      | ':' :: r2 =>
        match skipRegexWs r2 with
        | '"' :: r3 =>
          match takeUntilQuote r3 with
          | some (content, _) => some content
          | none => none
        | _ => none
      | _ => none
    else none).orElse (fun _ => findFieldRegex name rest)

def lowerChars (s : List Char) : List Char := s.map Char.toLower

/-! ## `parse_claude_response` (src/main.py lines 1756-1820) -/

def requiredFields : List String :=
  ["question", "correct_answer", "distractor1", "distractor2", "distractor3"]

/-- The substring between the first `\x7b` and the last `\x7d` (parsing
tier (ii)); `none` when the braces are missing or out of order. -/
def braceSpan (cs : List Char) : Option (List Char) :=
  match splitAtSub ['\x7b'] cs with
  | none => none
  | some (before, after) =>
    match splitAtSub ['\x7d'] after.reverse with
    | none => none
    | some (revTail, _) =>
      let start := before.length
      let stop := cs.length - revTail.length
      if start < stop then some ((cs.drop start).take (stop - start)) else none

/-- Tier (iii): extract each of the five fields independently as quoted
strings. -/
def regexFallbackFields (cs : List Char) : List (String × Json) :=
  match findFieldRegex "question".data cs, findFieldRegex "correct_answer".data cs,
      findFieldRegex "distractor1".data cs, findFieldRegex "distractor2".data cs,
      findFieldRegex "distractor3".data cs with
  | some q, some a, some d1, some d2, some d3 =>
    [("question", .str (String.mk q)), ("correct_answer", .str (String.mk a)),
     ("distractor1", .str (String.mk d1)), ("distractor2", .str (String.mk d2)),
     ("distractor3", .str (String.mk d3))]
  | _, _, _, _, _ => []

/-- One candidate of tiers (i) and (ii): `json.loads` it and keep it only
if it is an object carrying all five required fields. -/
def jsonObjectCandidate (b : List Char) : Option (List (String × Json)) :=
  match jsonLoads b with
  | some (Json.obj fields) =>
    if requiredFields.all (fun f => objHas fields f) then some fields else none
  | _ => none

/-- `parse_claude_response`: the empty dictionary (= `[]`) signals failure.
The Python `try/except` around the body returns `{}` on any internal
error; the embedded body is total, so no separate error case arises. -/
def parseClaudeResponse (s : String) : List (String × Json) :=
  let cs := s.data
  match (findFenceBlocksBrace (cs.length + 1) cs).findSome? jsonObjectCandidate with
  | some fields => fields
  | none =>
    match braceSpan cs with
    | some sub =>
      match jsonObjectCandidate sub with
      | some fields => fields
      | none => regexFallbackFields cs
    | none => regexFallbackFields cs

/-- Counterexample fixture for C9: the core is a syntactically valid JSON
object with the five fields, whose question value contains an escaped
quote. -/
def c9core : String :=
  "\x7b\"question\": \"say \\\"hi\\\"\", \"correct_answer\": \"a\", \"distractor1\": \"b\", \"distractor2\": \"c\", \"distractor3\": \"d\"\x7d"

/-- The noise prefix: it contributes a stray opening brace before the
object, so tier (ii) sees invalid JSON. -/
def c9prefix : String := "junk \x7b noise\n"

def c9resp : String := c9prefix ++ c9core

/-- The fields of the embedded object. -/
def c9fields : List (String × Json) :=
  [("question", .str "say \"hi\""), ("correct_answer", .str "a"),
   ("distractor1", .str "b"), ("distractor2", .str "c"), ("distractor3", .str "d")]

/-- Witness fixture for C9: the same object as the whole reply. -/
def c9goodResp : String := "answer: " ++ c9core ++ " done"

/-! ## Quality control (src/quality_control.py): string and score helpers -/

/-- Python `str.lower()` (ASCII data). -/
def lowerStr (s : String) : String := String.mk (lowerChars s.data)

/-- Python `str.capitalize()`: first character upper-cased, rest lower-cased. -/
def capitalizeStr (s : String) : String :=
  match s.data with
  | [] => ""
  | c :: rest => String.mk (c.toUpper :: lowerChars rest)

def natDigitsAux : Nat → Nat → List Char
  | 0, _ => []
  | fuel + 1, n =>
    if n < 10 then [Char.ofNat (48 + n)]
    else natDigitsAux fuel (n / 10) ++ [Char.ofNat (48 + n % 10)]

/-- Decimal rendering of a natural number (Python f-string interpolation
of the non-negative counts used in the QC messages). -/
def natToStr (n : Nat) : String := String.mk (natDigitsAux (n + 1) n)

/-- Python `int(s)` on a string: strip whitespace, optional sign, decimal
digits; `none` models the `ValueError` (underscore digit separators are
not modelled — no response format under study produces them). -/
def pyIntOfStr (s : String) : Option Int :=
  match trimChars s.data with
  | '+' :: ds =>
    if ds ≠ [] && ds.all Char.isDigit then some ((digitsToNat ds : Nat) : Int) else none
  | '-' :: ds =>
    if ds ≠ [] && ds.all Char.isDigit then some (-((digitsToNat ds : Nat) : Int)) else none
  | ds =>
    if ds ≠ [] && ds.all Char.isDigit then some ((digitsToNat ds : Nat) : Int) else none

/-- Python `score == 1` on a JSON-decoded value: `1` and `1.0` decode to
`Json.num 1`; `True == 1` holds because `bool` is an `int` subclass; a
non-integral float never equals 1; strings and containers never equal 1. -/
def jsonEqOne (j : Json) : Bool :=
  match j with
  | .num 1 => true
  | .bool true => true
  | _ => false

/-- Lines 966-972 of src/quality_control.py: a score that is not an
`int`/`float` (booleans are `int`s) is coerced with `int(...)`, falling
back to 0 on `ValueError`/`TypeError`. -/
def scoreNorm (j : Json) : Json :=
  match j with
  | .num n => .num n
  | .numFrac t => .numFrac t
  | .bool b => .bool b
  | .str s => .num ((pyIntOfStr s).getD 0)
  | _ => .num 0

/-- `score >= 1` on the normalised score.  For a non-integral float the
comparison with 1 is decided by the truncated value (`x >= 1` iff
`trunc x >= 1` when `x` is not an integer); `True >= 1` holds. -/
def jsonGeOne (j : Json) : Bool :=
  match j with
  | .num n => decide (n ≥ 1)
  | .numFrac t => decide (t ≥ 1)
  | .bool b => b
  | _ => false

/-! ## Quality control: response parsing
(`_parse_quality_check_response`, lines 1032-1113, and
`_parse_plausibility_response`, lines 844-919) -/

/-- The dictionary returned by `_parse_quality_check_response`: keys
`score` (a raw JSON value) and `reasoning`.  The `details` key carries the
raw response and is never read downstream, so it is dropped; a non-string
JSON `reasoning` value is only ever interpolated into log and error
strings, so its string content is recorded (with `""` for non-strings). -/
structure QCParsed where
  score : Json
  reasoning : String

/-- The dictionary returned by `_parse_plausibility_response`: keys
`plausibleFlag` (source key `is_plausible`) and `reasoning` — and no
`score` key, which is what the caller reads (the claim C4 bug). -/
structure PlausParsed where
  plausibleFlag : Bool
  reasoning : String

/-- The fenced-block loop of `_parse_quality_check_response` (lines
1066-1076): first block that `json.loads` accepts wins; a non-dict value
raises `AttributeError` at `.get`, caught by the outer handler, which
returns the initialized defaults. -/
def qcFenceScan : List (List Char) → Option QCParsed
  | [] => none
  | b :: rest =>
    match jsonLoads b with
    | some (Json.obj fields) =>
      some ⟨(objGet fields "score").getD (Json.num 0), (objGetStr fields "reasoning").getD ""⟩
    | some _ => some ⟨Json.num 0, ""⟩
    | none => qcFenceScan rest

/-- The regex and pass/fail-heuristic tail of
`_parse_quality_check_response` (lines 1078-1108), reached when neither
answer tags nor fenced blocks yielded JSON. -/
def qcParseTail (cs : List Char) : QCParsed :=
  match qcFenceScan (findFenceBlocksAny (cs.length + 1) cs) with
  | some r => r
  | none =>
    let score0 : Json := match findScoreRegex cs with | some n => Json.num n | none => Json.num 0
    let reasoning := match findReasoningRegex cs with | some r => String.mk r | none => ""
    let low := lowerChars cs
    let hasP := containsSub "pass".data low
    let hasF := containsSub "fail".data low
    let score1 : Json :=
      if hasP && hasF then
        match indexOfSub "pass".data low, indexOfSub "fail".data low,
            indexOfSub "score".data low with
        | some pi2, some fi2, some si =>
          if (max pi2 si - min pi2 si) < (max fi2 si - min fi2 si) then Json.num 1 else Json.num 0
        | _, _, _ => score0
      else if hasP || hasF then (if hasP && !hasF then Json.num 1 else Json.num 0)
      else score0
    ⟨score1, reasoning⟩

/-- `QuestionQualityControl._parse_quality_check_response` (lines
1032-1113).  Tier order: JSON in `<answer>` tags (stripped), fenced JSON
blocks, the score and reasoning regexes, the pass/fail heuristic. -/
def parseQualityCheckResponse (response : String) : QCParsed :=
  let cs := response.data
  match answerTagContent cs with
  | some content =>
    match jsonLoads (trimChars content) with
    | some (Json.obj fields) =>
      ⟨(objGet fields "score").getD (Json.num 0), (objGetStr fields "reasoning").getD ""⟩
    | some _ => ⟨Json.num 0, ""⟩
    | none => qcParseTail cs
  | none => qcParseTail cs

/-- Fenced-block loop of `_parse_plausibility_response` (lines 878-889). -/
def plausFenceScan : List (List Char) → Option PlausParsed
  | [] => none
  | b :: rest =>
    match jsonLoads b with
    | some (Json.obj fields) =>
      some ⟨jsonEqOne ((objGet fields "score").getD (Json.num 0)),
            (objGetStr fields "reasoning").getD ""⟩
    | some _ => some ⟨false, ""⟩
    | none => plausFenceScan rest

/-- Negation phrases of the plausibility heuristic (line 911). -/
def negPhrases : List String :=
  ["not plausible", "implausible", "isn't plausible", "is not plausible"]

/-- Split at every `.` and newline (the two characters excluded by
`[^\.\n]` in the plausibility-context regex). -/
def splitSegs : List Char → List (List Char)
  | [] => [[]]
  | c :: rest =>
    if c = '.' ∨ c = '\n' then [] :: splitSegs rest
    else
      match splitSegs rest with
      | [] => [[c]]
      | g :: gs => (c :: g) :: gs

/-- `re.search(r"[^\.\n]*plausible[^\.\n]*", low)`: the match is the whole
`.`/newline-delimited segment containing the first occurrence of
`plausible` (both greedy runs extend to the segment bounds). -/
def firstPlausSeg (low : List Char) : Option (List Char) :=
  (splitSegs low).find? (fun seg => containsSub "plausible".data seg)

/-- Regex and plausible-mention tail of `_parse_plausibility_response`
(lines 891-914). -/
def plausParseTail (cs : List Char) : PlausParsed :=
  match plausFenceScan (findFenceBlocksAny (cs.length + 1) cs) with
  | some r => r
  | none =>
    let p0 : Bool := match findScoreRegex cs with | some n => decide (n = 1) | none => false
    let reasoning := match findReasoningRegex cs with | some r => String.mk r | none => ""
    let low := lowerChars cs
    let p1 : Bool :=
      if containsSub "plausible".data low then
        match firstPlausSeg low with
        | some ctx => !(negPhrases.any (fun neg => containsSub neg.data ctx))
        | none => p0
      else p0
    ⟨p1, reasoning⟩

/-- `QuestionQualityControl._parse_plausibility_response` (lines 844-919). -/
def parsePlausibilityResponse (response : String) : PlausParsed :=
  let cs := response.data
  match answerTagContent cs with
  | some content =>
    match jsonLoads (trimChars content) with
    | some (Json.obj fields) =>
      ⟨jsonEqOne ((objGet fields "score").getD (Json.num 0)),
       (objGetStr fields "reasoning").getD ""⟩
    | some _ => ⟨false, ""⟩
    | none => plausParseTail cs
  | none => plausParseTail cs

/-! ## Quality control: validation pipeline
(`_run_specific_quality_check`, `_check_distractor_plausibility`,
`_perform_advanced_validation`, `validate_question`) -/

/-- A question dictionary as produced by generation: the five content
fields plus the `standard` and `difficulty` metadata (absent keys are
modelled as `""`, matching the `.get(key, "")` reads of the pipeline). -/
structure Question where
  question : String
  correct_answer : String
  distractor1 : String
  distractor2 : String
  distractor3 : String
  standard : String
  difficulty : String
deriving Repr, DecidableEq

/-- One entry of the `distractors` list built by
`_check_distractor_plausibility` (source key of `plausibleFlag` is
`is_plausible`). -/
structure DistractorRes where
  id : String
  plausibleFlag : Bool
  reasoning : String
deriving Repr, DecidableEq

/-- One value of the `quality_checks` dictionary.  The six rubric checks
carry `passes`/`score`/`reasoning` (their `distractor_results` is empty:
the source dict has no such key); the plausibility entry carries all
four. -/
structure QCheck where
  passes : Bool
  score : Json
  reasoning : String
  distractor_results : List DistractorRes

/-- The validation-result dictionary of `validate_question` and
`_perform_advanced_validation`. -/
structure ValidationResult where
  is_valid : Bool
  errors : List String
  warnings : List String
  improvement_suggestions : List String
  quality_checks : List (String × QCheck)

/-- The LLM and prompt-table oracle of one validation run: whether a
prompt exists for a given check name (`self.qc_prompts.get(name)`
truthiness), and the response text Claude returns for each rubric check
and for each distractor's plausibility prompt.  The interpolation of the
question, passage and standard into the prompt is absorbed into the
oracle, which covers every possible response. -/
structure CheckOracle where
  hasCheckPrompt : String → Bool
  check : String → String
  plaus : String → String

/-- `QuestionQualityControl._run_specific_quality_check` (lines 921-981). -/
def runSpecificQualityCheck (o : CheckOracle) (name : String) : QCheck :=
  if o.hasCheckPrompt name then
    let cr := parseQualityCheckResponse (o.check name)
    let score := scoreNorm cr.score
    ⟨jsonGeOne score, score, cr.reasoning, []⟩
  else ⟨false, Json.num 0, "No prompt available for " ++ name ++ " check", []⟩

/-- `question.get(distractor_id, "")`. -/
def distractorText (q : Question) : String → String
  | "distractor1" => q.distractor1
  | "distractor2" => q.distractor2
  | "distractor3" => q.distractor3
  | _ => ""

/-- `QuestionQualityControl._check_distractor_plausibility` (lines
708-796), returning the `distractors` list.  Line 769 reads
`plausibility_result.get("score", 0)`, but the dictionary returned by
`_parse_plausibility_response` has only the keys `is_plausible` and
`reasoning` (see `PlausParsed`), so the lookup always yields the default
0 and line 774 always computes `int(0) >= 1 = False`; the parsed
`reasoning` key does exist and is carried over. -/
def checkDistractorPlausibility (o : CheckOracle) (q : Question) : List DistractorRes :=
  if o.hasCheckPrompt "plausibility" then
    ["distractor1", "distractor2", "distractor3"].map (fun id =>
      if distractorText q id = "" then ⟨id, false, "Missing distractor text"⟩
      else
        let pr := parsePlausibilityResponse (o.plaus id)
        let score : Int := 0
        ⟨id, decide (score ≥ 1), pr.reasoning⟩)
  else
    ["distractor1", "distractor2", "distractor3"].map (fun id =>
      ⟨id, false, "No prompt available for plausibility check"⟩)

/-- The plausible-distractor count of lines 288-294. -/
def plausCount (o : CheckOracle) (q : Question) : Nat :=
  ((checkDistractorPlausibility o q).filter (fun r => r.plausibleFlag)).length

/-- The six required rubric checks, in loop order (lines 213-220). -/
def requiredChecks : List String :=
  ["formatting", "structure", "depth", "precision", "textual evidence",
   "single correct answer"]

/-- Difficulty normalisation of lines 270-279. -/
def normalizedDifficulty (d : String) : String :=
  let dl := lowerStr d
  if dl = "easy" ∨ dl = "medium" ∨ dl = "hard" then dl
  else if dl = "1" then "easy"
  else if dl = "3" then "hard"
  else "medium"

/-- Required plausible distractors (lines 297-300): 1 for easy, else 2. -/
def requiredPlausible (d : String) : Nat :=
  if normalizedDifficulty d = "easy" then 1 else 2

/-- The plausibility error message of line 322. -/
def plausMsg (o : CheckOracle) (q : Question) : String :=
  "Failed plausibility check: Only " ++ natToStr (plausCount o q) ++
  " out of 3 distractors are plausible. " ++
  capitalizeStr (normalizedDifficulty q.difficulty) ++
  " difficulty questions require at least " ++
  natToStr (requiredPlausible q.difficulty) ++ " plausible distractors."

/-- The `quality_checks["plausibility"]` entry of lines 310-315. -/
def plausEntry (o : CheckOracle) (q : Question) : QCheck :=
  ⟨decide (requiredPlausible q.difficulty ≤ plausCount o q),
   Json.num (if requiredPlausible q.difficulty ≤ plausCount o q then 1 else 0),
   "Found " ++ natToStr (plausCount o q) ++ " plausible distractors, need " ++
     natToStr (requiredPlausible q.difficulty) ++ " for " ++
     normalizedDifficulty q.difficulty ++ " difficulty",
   checkDistractorPlausibility o q⟩

/-- One iteration of the required-check loop (lines 232-263). -/
def checkStep (o : CheckOracle) (st : ValidationResult) (name : String) : ValidationResult :=
  let cr := runSpecificQualityCheck o name
  ⟨st.is_valid && cr.passes,
   st.errors ++ (if cr.passes then [] else ["Failed " ++ name ++ " check: " ++ cr.reasoning]),
   st.warnings,
   st.improvement_suggestions ++
     (if cr.passes then []
      else if cr.reasoning ≠ "" then ["Improve " ++ name ++ ": " ++ cr.reasoning] else []),
   alSet st.quality_checks name cr⟩

def runChecks (o : CheckOracle) : List String → ValidationResult → ValidationResult
  | [], st => st
  | n :: rest, st => runChecks o rest (checkStep o st n)

def initValidation : ValidationResult := ⟨true, [], [], [], []⟩

/-- `QuestionQualityControl._perform_advanced_validation` (lines 193-325). -/
def performAdvancedValidation (o : CheckOracle) (q : Question) : ValidationResult :=
  let base := runChecks o requiredChecks initValidation
  let passes := decide (requiredPlausible q.difficulty ≤ plausCount o q)
  ⟨base.is_valid && passes,
   base.errors ++ (if passes then [] else [plausMsg o q]),
   base.warnings,
   base.improvement_suggestions ++
     (if passes then []
      else ["Improve plausibility: Make at least " ++
            natToStr (requiredPlausible q.difficulty) ++
            " distractors plausible for " ++ normalizedDifficulty q.difficulty ++
            " difficulty questions."]),
   alSet base.quality_checks "plausibility" (plausEntry o q)⟩

/-- `QuestionQualityControl.validate_question` (lines 105-173): the key
merge of the initialized result with the advanced result (extend the
lists, conjoin the booleans, replace the `quality_checks` map). -/
def validateQuestion (o : CheckOracle) (q : Question) : ValidationResult :=
  let adv := performAdvancedValidation o q
  ⟨true && adv.is_valid, [] ++ adv.errors, [] ++ adv.warnings,
   [] ++ adv.improvement_suggestions, adv.quality_checks⟩

/-! ## Quality control: question improvement
(`improve_question`, lines 497-574, and `_extract_improved_question`,
lines 652-706) -/

/-- Fixture: a perfect-score response in the expected answer-tag format. -/
def allPassAnswer : String :=
  "<answer>\x7b\"score\": 1, \"reasoning\": \"ok\"\x7d</answer>"

/-- Fixture oracle: every prompt exists and every response is
`allPassAnswer`. -/
def allPassOracle : CheckOracle :=
  ⟨fun _ => true, fun _ => allPassAnswer, fun _ => allPassAnswer⟩

/-- Fixture question with all fields present. -/
def sampleQ : Question := ⟨"Q?", "A", "B", "C", "D", "STD", "medium"⟩

/-- The `standard_id` argument of `generate_quiz`: `None`, a single
standard string, or a list of standards (the `isinstance(standard_id,
list)` test at line 408). -/
inductive StdArg where
  | noneA : StdArg
  | strA : String → StdArg
  | listA : List String → StdArg
deriving Repr, DecidableEq

/-- A `standard_id` value as stored in the output metadata: `None`, a
string, or a list (line 551 stores a whole list, line 573 one element). -/
inductive StdIdVal where
  | nullV : StdIdVal
  | strV : String → StdIdVal
  | listV : List String → StdIdVal
deriving Repr, DecidableEq

/-- Python truthiness of the `standard_id` argument. -/
def truthyStdArg : StdArg → Bool
  | .noneA => false
  | .strA s => s ≠ ""
  | .listA l => !l.isEmpty

def stdArgVal : StdArg → StdIdVal
  | .noneA => .nullV
  | .strA s => .strV s
  | .listA l => .listV l

/-- Python truthiness of the `lesson_name` argument. -/
def truthyLn : Option String → Bool
  | none => false
  | some s => s ≠ ""

/-- The deduplicating accumulation of previous standards over all lesson
standards (lines 418-423). -/
def allPrevStandards (lessons : List Lesson) (stds : List String) : List String :=
  stds.foldl (fun acc std => (getPreviousStandards lessons std).foldl dedupStep acc) []

/-- The fallback error message of `_handle_missing_data` (line 367). -/
def fallbackMsg : String :=
  "Insufficient data available to generate a complete quiz. This is a fallback result."

/-- The `passage` block of the output quiz. -/
structure QuizPassage where
  id : String
  title : String
  author : String
  type : String
  text : String
deriving Repr, DecidableEq

def quizPassageOf (p : Passage) : QuizPassage := ⟨p.id, p.title, p.author, p.type, p.text⟩

/-- The minimal passage created when no passage data exists (lines
341-347). -/
def fallbackPassage : QuizPassage :=
  ⟨"fallback", "Sample Passage", "System Generated", "Text",
   "<p>This is a sample passage generated because the requested data was not available. The system could not find the necessary passage data for your quiz.</p>"⟩

/-- The `metadata` block of the output quiz (`error` is present only on
the degraded paths). -/
structure QuizMetadata where
  lesson_name : Option String
  standard_id : StdIdVal
  difficulty : Nat
  num_questions : Nat
  num_questions_generated : Nat
  timestamp : String
  error : Option String
deriving Repr, DecidableEq

/-- One output question: the question dict plus the optional
`explanation` key added by `format_quiz_output`. -/
structure QOut where
  question : Question
  explanation : Option String
deriving Repr, DecidableEq

structure Quiz where
  passage : QuizPassage
  questions : List QOut
  metadata : QuizMetadata
deriving Repr, DecidableEq

/-- The read-only generator state consulted by `generate_quiz`. -/
structure QuizEnv where
  lessonsData : List Lesson
  passagesData : List Passage
  standardsByLesson : List (String × List String)
  selEnv : SelEnv

/-- The random and LLM oracle of one `generate_quiz` run: the passage
random choices, the distributor's tape, the outcome of
`generate_questions` on the computed distribution (`.error` is a raised
exception's message), the outcome of `generate_explanations_for_quiz`,
and the formatted timestamp. -/
structure GenOracle where
  selTape : SelTape
  distTape : DistTape
  genResult : List (String × Tri) → Except String (List Question)
  explResult : List Question → Except String (List (String × String))
  timestamp : String

/-- `QuizGenerator._handle_missing_data` (lines 318-372). -/
def handleMissingData (env : QuizEnv) (stdId : StdIdVal) (ln : Option String)
    (ts : String) : Quiz :=
  let qp := match env.passagesData with
    | p :: _ => quizPassageOf p
    | [] => fallbackPassage
  ⟨qp, [], ⟨ln, stdId, 1, 0, 0, ts, some fallbackMsg⟩⟩

/-- `QuizGenerator.format_quiz_output` (lines 1104-1138): the passage
block and the question list (each question copied, with an `explanation`
key when the explanations dict is truthy and has the stringified index);
the metadata is assigned by the caller. -/
def formatQuizOutput (qs : List Question) (p : Passage)
    (expl : List (String × String)) : QuizPassage × List QOut :=
  (quizPassageOf p,
   qs.enum.map (fun iq => ⟨iq.2, if expl.isEmpty then none else alFind expl (natToStr iq.1)⟩))

/-- The metadata `standard_id` of the question-generation error path
(line 551): the raw argument if truthy, else the whole
`standards_by_lesson.get(lesson_name)` value (`None` when absent). -/
def stdIdMeta551 (env : QuizEnv) (ln : Option String) (sa : StdArg) : StdIdVal :=
  if truthyStdArg sa then stdArgVal sa
  else if truthyLn ln then
    match alFind env.standardsByLesson (ln.getD "") with
    | some l => .listV l
    | none => .nullV
  else .nullV

/-- The metadata `standard_id` of the success path (line 573): the raw
argument if truthy, else `standards_by_lesson.get(lesson_name, [None])[0]`.
The `some []` case would raise `IndexError` in the source but is
unreachable: an empty standards list for a truthy lesson name without a
standard argument returns the fallback before this line. -/
def stdIdMeta573 (env : QuizEnv) (ln : Option String) (sa : StdArg) : StdIdVal :=
  if truthyStdArg sa then stdArgVal sa
  else if truthyLn ln then
    match alFind env.standardsByLesson (ln.getD "") with
    | some (s :: _) => .strV s
    | some [] => .nullV
    | none => .nullV
  else .nullV

/-- The inline multi-standard common-passage search of `generate_quiz`
(lines 431-496).  Unlike `select_passage`, the Draft gate here checks ALL
lesson standards for writing examples (lines 469-474), and every
unsuccessful outcome leaves the passage unset (`none`) for the primary
fallback block.  The Python set intersection is iterated in an arbitrary
order; the embedding keeps first-standard insertion order, and the choice
is oracle-driven, so the set of reachable outcomes is unchanged. -/
def pickCommonPassage (env : SelEnv) (t : SelTape) (stds : List String) :
    Option Passage :=
  match stds with
  | [] => none
  | first :: rest =>
    match passagesFor env first with
    | [] => none
    | _ :: _ =>
      let commonIds := rest.foldl (intersectIds env) (passageMapKeys (passagesFor env first))
      if commonIds = [] then none
      else
        match commonIds.filterMap (fun pid => passageMapFind (passagesFor env first) pid) with
        | [] => none
        | p :: ps =>
          let selected := (p :: ps).getD (t.c1 % (p :: ps).length) p
          if selected.type = "Draft" then
            if stds.all (fun s => hasWritingExamples env s) then some selected
            else
              match (p :: ps).filter (fun q => q.type ≠ "Draft") with
              | [] => none
              | q :: qs => some ((q :: qs).getD (t.c2 % (q :: qs).length) q)
          else some selected

/-- The tail of `generate_quiz` once a passage is fixed (lines 532-580):
distribution, question generation with its inner exception handler, the
explanation attempt, formatting and metadata. -/
def buildQuiz (env : QuizEnv) (o : GenOracle) (ln : Option String) (sa : StdArg)
    (d nq : Nat) (stds prev : List String) (p : Passage) : Quiz :=
  let dist := distributeQuestions nq d stds prev o.distTape
  match o.genResult dist with
  | .error e =>
    let fq := formatQuizOutput [] p []
    ⟨fq.1, fq.2,
     ⟨ln, stdIdMeta551 env ln sa, d, nq, 0, o.timestamp,
      some ("Failed to generate questions: " ++ e)⟩⟩
  | .ok qs =>
    let expl := match o.explResult qs with | .ok dct => dct | .error _ => []
    let fq := formatQuizOutput qs p expl
    ⟨fq.1, fq.2,
     ⟨ln, stdIdMeta573 env ln sa, d, nq, fq.2.length, o.timestamp, none⟩⟩

/-- Lines 417-530 of `generate_quiz`, after a non-empty standards list is
fixed: previous standards, the multi-standard common-passage search, the
primary-standard fallback selection (whose two failure exits both return
the fallback quiz for the primary standard; its logic coincides with the
single-standard branch of `select_passage`). -/
def quizAfterStandards (env : QuizEnv) (o : GenOracle) (ln : Option String)
    (sa : StdArg) (d nq : Nat) (stds : List String) : Quiz :=
  let prev := allPrevStandards env.lessonsData stds
  let primary := stds.headD ""
  let common := if stds.length > 1 then pickCommonPassage env.selEnv o.selTape stds else none
  match common with
  | some p => buildQuiz env o ln sa d nq stds prev p
  | none =>
    match selectPassageSingle env.selEnv primary o.selTape with
    | none => handleMissingData env (.strV primary) ln o.timestamp
    | some p => buildQuiz env o ln sa d nq stds prev p

/-- The `try:` body of `generate_quiz` (lines 393-584).  The handler at
lines 582-584 returns the fallback quiz on any exception; the embedded
body is total, so only the modelled degraded paths arise. -/
def generateQuizBody (env : QuizEnv) (o : GenOracle) (ln : Option String)
    (sa : StdArg) (d nq : Nat) : Quiz :=
  if truthyLn ln && !truthyStdArg sa then
    match (alFind env.standardsByLesson (ln.getD "")).getD [] with
    | [] => handleMissingData env .nullV ln o.timestamp
    | s :: ss => quizAfterStandards env o ln sa d nq (s :: ss)
  else
    let stds := if truthyStdArg sa then
        (match sa with | .listA l => l | .strA s => [s] | .noneA => [])
      else []
    match stds with
    | [] => handleMissingData env .nullV none o.timestamp
    | s :: ss => quizAfterStandards env o ln sa d nq (s :: ss)

/-- The entry log of `generate_quiz` (line 391) evaluates
`'Lesson: '+lesson_name if lesson_name else 'Standard: '+standard_id`
BEFORE the `try:` at line 393: when `lesson_name` is falsy and
`standard_id` is `None` or a list, the string concatenation raises an
uncaught `TypeError`.  A string `standard_id` (even `""`) concatenates
fine. -/
def entryLogRaises (ln : Option String) (sa : StdArg) : Bool :=
  !truthyLn ln && (match sa with
    | .strA _ => false
    | .noneA => true
    | .listA _ => true)

def entryLogMsg : String :=
  "TypeError: can only concatenate str (not a non-str standard_id) to str"

/-- `QuizGenerator.generate_quiz` (lines 374-584): the uncaught
`TypeError` of the pre-`try` entry log, then the guarded body. -/
def generateQuiz (env : QuizEnv) (o : GenOracle) (ln : Option String)
    (sa : StdArg) (d nq : Nat) : Except String Quiz :=
  if entryLogRaises ln sa then .error entryLogMsg
  else .ok (generateQuizBody env o ln sa d nq)

/-- Concrete environment for the C2 witness: one lesson `L1` with one
standard; nothing for `L2`. -/
def envC2 : QuizEnv :=
  ⟨[⟨"L1", "A"⟩], [], [("L1", ["A"])], ⟨[], []⟩⟩

/-- All-zero, always-succeeding oracle for the C2 witness. -/
def oracleC2 : GenOracle :=
  ⟨⟨0, 0, 0, 0⟩, zeroTape, fun _ => .ok [], fun _ => .ok [], "ts"⟩

/-- Keys of an association list, in order. -/
def alKeys {α : Type} (l : List (String × α)) : List String := l.map (·.1)

/-- The total a per-standard count dictionary assigns to the lesson
standards (used by the claim C7 floor argument). -/
def lessonVal (stds : List String) (qps : List (String × Nat)) : Nat :=
  (stds.map (fun s => (alFind qps s).getD 0)).sum

/-! ## Dictionary lemmas -/


theorem alFind_alSet_self {α : Type} (l : List (String × α)) (k : String) (v : α) :
    alFind (alSet l k v) k = some v := by
  induction l with
  | nil => simp [alSet, alFind]
  | cons p rest ih =>
    obtain ⟨a, b⟩ := p
    by_cases h : a = k
    · simp [alSet, alFind, h]
    · simp [alSet, alFind, h, ih]

theorem alFind_alSet_ne {α : Type} (l : List (String × α)) (k k' : String) (v : α)
    (h : k' ≠ k) : alFind (alSet l k v) k' = alFind l k' := by
  have hne : ¬ (k = k') := fun hh => h hh.symm
  induction l with
  | nil => simp [alSet, alFind, hne]
  | cons p rest ih =>
    obtain ⟨a, b⟩ := p
    by_cases hp : a = k
    · have hp' : ¬ (a = k') := by rw [hp]; exact hne
      simp [alSet, alFind, hp, hne, hp']
    · by_cases hq : a = k'
      · subst hq
        simp [alSet, alFind, hp, h]
      · simp [alSet, alFind, hp, hq, ih]

theorem alFind_alAdd (l : List (String × Nat)) (k k' : String) (n : Nat) :
    alFind (alAdd l k n) k' =
      if k' = k then some ((alFind l k).getD 0 + n) else alFind l k' := by
  by_cases h : k' = k
  · subst h; simp [alAdd, alFind_alSet_self]
  · simp [alAdd, h, alFind_alSet_ne l k k' _ h]

theorem alSum_alAdd (l : List (String × Nat)) (k : String) (n : Nat) :
    alSum (alAdd l k n) = alSum l + n := by
  induction l with
  | nil => simp [alAdd, alFind, alSet, alSum]
  | cons p rest ih =>
    obtain ⟨a, b⟩ := p
    by_cases h : a = k
    · subst h
      simp only [alAdd, alFind, if_pos rfl, alSet, Option.getD_some]
      simp [alSum]
      omega
    · simp only [alAdd, alFind, if_neg h, alSet]
      simp only [alSum, List.map_cons, List.sum_cons]
      have h2 : alSum (alSet rest k ((alFind rest k).getD 0 + n)) = alSum rest + n := by
        simpa [alAdd] using ih
      simp only [alSum] at h2
      omega

theorem alFind_isSome_of_mem_keys {α : Type} (l : List (String × α)) (k : String)
    (h : k ∈ alKeys l) : (alFind l k).isSome := by
  induction l with
  | nil => simp [alKeys] at h
  | cons p rest ih =>
    obtain ⟨a, b⟩ := p
    by_cases hp : a = k
    · simp [alFind, hp]
    · simp only [alKeys, List.map_cons, List.mem_cons] at h
      rcases h with h | h
      · exact absurd h.symm hp
      · simp only [alFind, if_neg hp]
        exact ih h

theorem mem_keys_of_alFind_isSome {α : Type} (l : List (String × α)) (k : String)
    (h : (alFind l k).isSome) : k ∈ alKeys l := by
  induction l with
  | nil => simp [alFind] at h
  | cons p rest ih =>
    obtain ⟨a, b⟩ := p
    by_cases hp : a = k
    · simp [alKeys, hp]
    · simp only [alFind, if_neg hp] at h
      simp only [alKeys, List.map_cons, List.mem_cons]
      exact Or.inr (ih h)

theorem alKeys_alSet_present {α : Type} (l : List (String × α)) (k : String) (v : α)
    (h : (alFind l k).isSome) : alKeys (alSet l k v) = alKeys l := by
  induction l with
  | nil => simp [alFind] at h
  | cons p rest ih =>
    obtain ⟨a, b⟩ := p
    by_cases hp : a = k
    · simp [alSet, hp, alKeys]
    · simp only [alFind, if_neg hp] at h
      simp only [alSet, if_neg hp, alKeys, List.map_cons]
      have := ih h
      simp only [alKeys] at this
      rw [this]

theorem alKeys_alSet_absent {α : Type} (l : List (String × α)) (k : String) (v : α)
    (h : alFind l k = none) : alKeys (alSet l k v) = alKeys l ++ [k] := by
  induction l with
  | nil => simp [alSet, alKeys]
  | cons p rest ih =>
    obtain ⟨a, b⟩ := p
    by_cases hp : a = k
    · simp [alFind, hp] at h
    · simp only [alFind, if_neg hp] at h
      simp only [alSet, if_neg hp, alKeys, List.map_cons, List.cons_append]
      have := ih h
      simp only [alKeys] at this
      rw [this]

theorem alKeys_nodup_alSet {α : Type} (l : List (String × α)) (k : String) (v : α)
    (h : (alKeys l).Nodup) : (alKeys (alSet l k v)).Nodup := by
  rcases hf : alFind l k with _ | w
  · rw [alKeys_alSet_absent l k v hf]
    have hk : k ∉ alKeys l := by
      intro hm
      have := alFind_isSome_of_mem_keys l k hm
      rw [hf] at this
      simp at this
    simp [List.nodup_append, h, hk]
  · rw [alKeys_alSet_present l k v (by simp [hf])]
    exact h

/-! ## Tier-sizing lemmas -/

theorem drawCount_le (lo : Nat) (hi : Int) (cap r : Nat) (h : hi ≤ (cap : Int)) :
    drawCount lo hi cap r ≤ cap := by
  unfold drawCount
  split_ifs with h1 h2
  · omega
  · omega
  · have h4 : r % (hi.toNat - lo + 1) < hi.toNat - lo + 1 := Nat.mod_lt _ (by omega)
    omega

/-- `num_easy + num_medium ≤ num_questions`, so the Python remainder
`num_hard = nq - num_easy - num_medium` is non-negative and the `Nat`
subtraction in `tierCounts` is exact. -/
theorem tierCounts_le (nq d rE rM : Nat) :
    (tierCounts nq d rE rM).1 + (tierCounts nq d rE rM).2.1 ≤ nq := by
  simp only [tierCounts]
  set dr := DIFFICULTY_LEVELS d
  set minTotal := dr.easyMin + dr.mediumMin + dr.hardMin with hmt
  set eMin := if nq < minTotal then max 1 (dr.easyMin * nq / minTotal) else dr.easyMin
  set mMin := if nq < minTotal then max 1 (dr.mediumMin * nq / minTotal) else dr.mediumMin
  set hMin := if nq < minTotal then max 1 (dr.hardMin * nq / minTotal) else dr.hardMin
  have he : drawCount eMin (min (dr.easyMax : Int) ((nq : Int) - (mMin : Int) - (hMin : Int))) nq rE ≤ nq := by
    apply drawCount_le
    omega
  have hm : drawCount mMin
      (min (dr.mediumMax : Int)
        (((nq - drawCount eMin (min (dr.easyMax : Int) ((nq : Int) - (mMin : Int) - (hMin : Int))) nq rE : Nat) : Int) - (hMin : Int)))
      (nq - drawCount eMin (min (dr.easyMax : Int) ((nq : Int) - (mMin : Int) - (hMin : Int))) nq rE) rM ≤
      nq - drawCount eMin (min (dr.easyMax : Int) ((nq : Int) - (mMin : Int) - (hMin : Int))) nq rE := by
    apply drawCount_le
    omega
  omega

/-- The three tier counts always total exactly `num_questions`. -/
theorem tierCounts_sum (nq d rE rM : Nat) :
    (tierCounts nq d rE rM).1 + (tierCounts nq d rE rM).2.1 + (tierCounts nq d rE rM).2.2 = nq := by
  have h := tierCounts_le nq d rE rM
  have h2 : (tierCounts nq d rE rM).2.2 = nq - (tierCounts nq d rE rM).1 - (tierCounts nq d rE rM).2.1 := by
    simp only [tierCounts]
  omega

/-! ## Conservation through the tier-assignment passes -/

theorem allocHardFirst_sum (c H M E : Nat) :
    triTotal (allocHardFirst c H M E).1 + (allocHardFirst c H M E).2.1 +
      (allocHardFirst c H M E).2.2.1 + (allocHardFirst c H M E).2.2.2 = H + M + E := by
  simp only [allocHardFirst, triTotal]
  omega

theorem allocEasyFirst_sum (c H M E : Nat) :
    triTotal (allocEasyFirst c H M E).1 + (allocEasyFirst c H M E).2.1 +
      (allocEasyFirst c H M E).2.2.1 + (allocEasyFirst c H M E).2.2.2 = H + M + E := by
  simp only [allocEasyFirst, triTotal]
  omega

theorem allocHardFirst_full (c H M E : Nat) (h : c ≤ H + M + E) :
    triTotal (allocHardFirst c H M E).1 = c := by
  simp only [allocHardFirst, triTotal]
  omega

theorem resultTotal_alSet_fresh (res : List (String × Tri)) (s : String) (tri : Tri)
    (h : alFind res s = none) :
    resultTotal (alSet res s tri) = resultTotal res + triTotal tri := by
  induction res with
  | nil => simp [alSet, resultTotal]
  | cons p rest ih =>
    obtain ⟨a, b⟩ := p
    by_cases hp : a = s
    · simp [alFind, hp] at h
    · simp only [alFind, if_neg hp] at h
      simp only [alSet, if_neg hp, resultTotal, List.map_cons, List.sum_cons]
      have := ih h
      simp only [resultTotal] at this
      omega

theorem lessonPass_conserve (qps : List (String × Nat)) (stds : List String) :
    ∀ (res : List (String × Tri)) (H M E : Nat), stds.Nodup →
    (∀ s ∈ stds, alFind res s = none) →
    resultTotal (lessonPass qps stds res H M E).1 +
      (lessonPass qps stds res H M E).2.1 +
      (lessonPass qps stds res H M E).2.2.1 +
      (lessonPass qps stds res H M E).2.2.2 = resultTotal res + H + M + E := by
  induction stds with
  | nil => intro res H M E _ _; simp [lessonPass]
  | cons s ss ih =>
    intro res H M E hnd hfresh
    obtain ⟨hs, hss⟩ := List.nodup_cons.mp hnd
    cases hq : alFind qps s with
    | none =>
      simp only [lessonPass, hq]
      exact ih res H M E hss (fun s2 h2 => hfresh s2 (List.mem_cons_of_mem s h2))
    | some c =>
      simp only [lessonPass, hq]
      have hfresh2 : ∀ s2 ∈ ss, alFind (alSet res s (allocHardFirst c H M E).1) s2 = none := by
        intro s2 h2
        have hne : s2 ≠ s := fun hh => hs (hh ▸ h2)
        rw [alFind_alSet_ne res s s2 _ hne]
        exact hfresh s2 (List.mem_cons_of_mem s h2)
      rw [ih _ _ _ _ hss hfresh2]
      rw [resultTotal_alSet_fresh res s _ (hfresh s (List.mem_cons_self s ss))]
      have := allocHardFirst_sum c H M E
      omega

theorem otherPass_conserve (lessonStds : List String) (entries : List (String × Nat)) :
    ∀ (res : List (String × Tri)) (H M E : Nat), (alKeys entries).Nodup →
    (∀ p ∈ entries, p.1 ∉ lessonStds → alFind res p.1 = none) →
    resultTotal (otherPass lessonStds entries res H M E).1 +
      (otherPass lessonStds entries res H M E).2.1 +
      (otherPass lessonStds entries res H M E).2.2.1 +
      (otherPass lessonStds entries res H M E).2.2.2 = resultTotal res + H + M + E := by
  induction entries with
  | nil => intro res H M E _ _; simp [otherPass]
  | cons p rest ih =>
    intro res H M E hnd hfresh
    obtain ⟨a, c⟩ := p
    have hnd' : (alKeys rest).Nodup := (List.nodup_cons.mp hnd).2
    have ha : a ∉ alKeys rest := by
      have := (List.nodup_cons.mp hnd).1
      simpa [alKeys] using this
    by_cases hmem : a ∈ lessonStds
    · simp only [otherPass, if_pos hmem]
      exact ih res H M E hnd' (fun p2 h2 hnm => hfresh p2 (List.mem_cons_of_mem _ h2) hnm)
    · simp only [otherPass, if_neg hmem]
      have hfreshA : alFind res a = none := hfresh (a, c) (List.mem_cons_self _ rest) hmem
      have hfresh2 : ∀ p2 ∈ rest, p2.1 ∉ lessonStds →
          alFind (alSet res a (allocEasyFirst c H M E).1) p2.1 = none := by
        intro p2 h2 hnm
        have hne : p2.1 ≠ a := by
          intro hh
          exact ha (hh ▸ (by simpa [alKeys] using List.mem_map_of_mem (·.1) h2))
        rw [alFind_alSet_ne res a p2.1 _ hne]
        exact hfresh p2 (List.mem_cons_of_mem _ h2) hnm
      rw [ih _ _ _ _ hnd' hfresh2]
      rw [resultTotal_alSet_fresh res a _ hfreshA]
      have := allocEasyFirst_sum c H M E
      omega

/-! ## Redistribution lemmas -/

theorem triTotal_triBump (tr : Tri) (i : Nat) : triTotal (triBump tr i) = triTotal tr + 1 := by
  match i with
  | 0 => simp [triBump, triTotal]; omega
  | 1 => simp [triBump, triTotal]; omega
  | n + 2 => simp [triBump, triTotal]; omega

theorem bumpAt_total (res : List (String × Tri)) (s : String) (i : Nat)
    (h : s ∈ alKeys res) : resultTotal (bumpAt res s i) = resultTotal res + 1 := by
  induction res with
  | nil => simp [alKeys] at h
  | cons p rest ih =>
    obtain ⟨a, b⟩ := p
    by_cases hp : a = s
    · simp only [bumpAt, if_pos hp, resultTotal, List.map_cons, List.sum_cons]
      have := triTotal_triBump b i
      omega
    · simp only [alKeys, List.map_cons, List.mem_cons] at h
      rcases h with h | h
      · exact absurd h.symm hp
      · simp only [bumpAt, if_neg hp, resultTotal, List.map_cons, List.sum_cons]
        have := ih h
        simp only [resultTotal] at this
        omega

theorem bumpAt_length (res : List (String × Tri)) (s : String) (i : Nat) :
    (bumpAt res s i).length = res.length := by
  induction res with
  | nil => simp [bumpAt]
  | cons p rest ih =>
    obtain ⟨a, b⟩ := p
    by_cases hp : a = s
    · simp [bumpAt, hp]
    · simp [bumpAt, hp, ih]

theorem getD_mem_of_default_mem {α : Type} (l : List α) (n : Nat) (d : α)
    (hd : d ∈ l) : l.getD n d ∈ l := by
  rw [List.getD_eq_getElem?_getD]
  cases hg : l[n]? with
  | none => simpa using hd
  | some x =>
    have := List.getElem?_mem hg
    simpa [hg] using this

theorem eligibleStds_subset_keys (res : List (String × Tri)) (i : Nat) (s : String)
    (h : s ∈ eligibleStds res i) : s ∈ alKeys res := by
  simp only [eligibleStds, List.mem_map] at h
  obtain ⟨p, hp, hps⟩ := h
  have := List.mem_of_mem_filter hp
  simpa [alKeys, hps] using List.mem_map_of_mem (·.1) this

theorem eligibleStds_ne_nil (res : List (String × Tri)) (i : Nat) (h : res ≠ []) :
    eligibleStds res i ≠ [] := by
  cases hm : (res.map (fun q => triGet q.2 i)).min? with
  | none =>
    rw [List.min?_eq_none_iff] at hm
    exact absurd (List.map_eq_nil_iff.mp hm) h
  | some m =>
    have hmem : m ∈ res.map (fun q => triGet q.2 i) :=
      List.min?_mem (fun a b => min_choice a b) hm
    obtain ⟨q, hq, hqm⟩ := List.mem_map.mp hmem
    intro hcon
    have hqf : q ∈ res.filter (fun p => triGet p.2 i = minTierValue res i) := by
      apply List.mem_filter.mpr
      refine ⟨hq, ?_⟩
      simp [minTierValue, hm, hqm]
    have hq1 : q.1 ∈ eligibleStds res i := by
      simp only [eligibleStds]
      exact List.mem_map_of_mem (·.1) hqf
    simp [hcon] at hq1

theorem redistributeTier_total (t : DistTape) (i : Nat) :
    ∀ (cnt : Nat) (res : List (String × Tri)) (k : Nat), res ≠ [] →
    resultTotal (redistributeTier t i cnt res k) = resultTotal res + cnt := by
  intro cnt
  induction cnt with
  | zero => intro res k _; simp [redistributeTier]
  | succ n ih =>
    intro res k hres
    cases he : eligibleStds res i with
    | nil => exact absurd he (eligibleStds_ne_nil res i hres)
    | cons e es =>
      simp only [redistributeTier, he]
      have hmem : (e :: es).getD (t.tie i k % (e :: es).length) e ∈ e :: es :=
        getD_mem_of_default_mem _ _ _ (List.mem_cons_self e es)
      have hkey : (e :: es).getD (t.tie i k % (e :: es).length) e ∈ alKeys res := by
        apply eligibleStds_subset_keys res i
        rw [he]
        exact hmem
      have hlen : (bumpAt res ((e :: es).getD (t.tie i k % (e :: es).length) e) i).length = res.length :=
        bumpAt_length _ _ _
      have hne2 : bumpAt res ((e :: es).getD (t.tie i k % (e :: es).length) e) i ≠ [] := by
        intro hcon
        rw [hcon] at hlen
        simp at hlen
        exact hres (List.length_eq_zero.mp hlen.symm)
      rw [ih _ (k + 1) hne2]
      rw [bumpAt_total res _ i hkey]
      omega

theorem redistributeTier_ne_nil (t : DistTape) (i : Nat) :
    ∀ (cnt : Nat) (res : List (String × Tri)) (k : Nat), res ≠ [] →
    redistributeTier t i cnt res k ≠ [] := by
  intro cnt
  induction cnt with
  | zero => intro res k hres; simpa [redistributeTier] using hres
  | succ n ih =>
    intro res k hres
    cases he : eligibleStds res i with
    | nil => exact absurd he (eligibleStds_ne_nil res i hres)
    | cons e es =>
      simp only [redistributeTier, he]
      apply ih
      intro hcon
      have hlen := bumpAt_length res ((e :: es).getD (t.tie i k % (e :: es).length) e) i
      rw [hcon] at hlen
      simp at hlen
      exact hres (List.length_eq_zero.mp hlen.symm)

/-! ## Bookkeeping through step 2 -/

theorem alSet_ne_nil {α : Type} (l : List (String × α)) (k : String) (v : α) :
    alSet l k v ≠ [] := by
  cases l with
  | nil => simp [alSet]
  | cons p rest =>
    obtain ⟨a, b⟩ := p
    by_cases h : a = k <;> simp [alSet, h]

theorem alFind_isSome_alSet {α : Type} (l : List (String × α)) (k k2 : String) (v : α)
    (h : (alFind l k).isSome) : (alFind (alSet l k2 v) k).isSome := by
  by_cases hk : k = k2
  · subst hk; simp [alFind_alSet_self]
  · rw [alFind_alSet_ne l k2 k v hk]; exact h

theorem alFind_isSome_alAdd (l : List (String × Nat)) (k k2 : String) (n : Nat)
    (h : (alFind l k).isSome) : (alFind (alAdd l k2 n) k).isSome := by
  rw [alFind_alAdd]
  by_cases hk : k = k2
  · simp [hk]
  · simp only [if_neg hk]; exact h

theorem assignMinimums_preserves_isSome (minQ : Nat) (ss : List String) :
    ∀ (qps : List (String × Nat)) (left : Nat) (k : String), (alFind qps k).isSome →
    (alFind (assignMinimums minQ ss qps left).1 k).isSome := by
  induction ss with
  | nil => intro qps left k h; simpa [assignMinimums] using h
  | cons s rest ih =>
    intro qps left k h
    simp only [assignMinimums]
    split_ifs with h0
    · exact h
    · exact ih _ _ _ (alFind_isSome_alSet _ _ _ _ h)

theorem whileDistribute_preserves_isSome (nq : Nat) (t : DistTape) :
    ∀ (left : Nat) (qps : List (String × Nat)) (pri : List String) (j : Nat) (k : String),
    (alFind qps k).isSome → (alFind (whileDistribute nq t left qps pri j).1 k).isSome := by
  intro left
  induction left with
  | zero => intro qps pri j k h; simpa [whileDistribute] using h
  | succ n ih =>
    intro qps pri j k h
    cases pri with
    | nil => simpa [whileDistribute] using h
    | cons p ps =>
      simp only [whileDistribute]
      exact ih _ _ _ _ (alFind_isSome_alAdd _ _ _ _ h)

theorem evenDistribute_preserves_isSome (t : DistTape) (allStds : List String) :
    ∀ (left : Nat) (qps : List (String × Nat)) (j : Nat) (k : String),
    (alFind qps k).isSome → (alFind (evenDistribute t allStds left qps j) k).isSome := by
  intro left
  induction left with
  | zero => intro qps j k h; simpa [evenDistribute] using h
  | succ n ih =>
    intro qps j k h
    cases allStds with
    | nil => simpa [evenDistribute] using h
    | cons a rest =>
      simp only [evenDistribute]
      exact ih _ _ _ (alFind_isSome_alAdd _ _ _ _ h)

theorem assignMinimums_keys_nodup (minQ : Nat) (ss : List String) :
    ∀ (qps : List (String × Nat)) (left : Nat), (alKeys qps).Nodup →
    (alKeys (assignMinimums minQ ss qps left).1).Nodup := by
  induction ss with
  | nil => intro qps left h; simpa [assignMinimums] using h
  | cons s rest ih =>
    intro qps left h
    simp only [assignMinimums]
    split_ifs with h0
    · exact h
    · exact ih _ _ (alKeys_nodup_alSet _ _ _ h)

theorem whileDistribute_keys_nodup (nq : Nat) (t : DistTape) :
    ∀ (left : Nat) (qps : List (String × Nat)) (pri : List String) (j : Nat),
    (alKeys qps).Nodup → (alKeys (whileDistribute nq t left qps pri j).1).Nodup := by
  intro left
  induction left with
  | zero => intro qps pri j h; simpa [whileDistribute] using h
  | succ n ih =>
    intro qps pri j h
    cases pri with
    | nil => simpa [whileDistribute] using h
    | cons p ps =>
      simp only [whileDistribute]
      exact ih _ _ _ (alKeys_nodup_alSet _ _ _ h)

theorem evenDistribute_keys_nodup (t : DistTape) (allStds : List String) :
    ∀ (left : Nat) (qps : List (String × Nat)) (j : Nat), (alKeys qps).Nodup →
    (alKeys (evenDistribute t allStds left qps j)).Nodup := by
  intro left
  induction left with
  | zero => intro qps j h; simpa [evenDistribute] using h
  | succ n ih =>
    intro qps j h
    cases allStds with
    | nil => simpa [evenDistribute] using h
    | cons a rest =>
      simp only [evenDistribute]
      exact ih _ _ (alKeys_nodup_alSet _ _ _ h)

theorem questionsPerStandard_keys_nodup (nq : Nat) (stds allStds : List String)
    (t : DistTape) : (alKeys (questionsPerStandard nq stds allStds t)).Nodup := by
  simp only [questionsPerStandard]
  apply evenDistribute_keys_nodup
  apply whileDistribute_keys_nodup
  apply assignMinimums_keys_nodup
  simp [alKeys]

theorem questionsPerStandard_head_isSome (nq : Nat) (s0 : String) (rest allStds : List String)
    (t : DistTape) (h : nq ≠ 0) :
    (alFind (questionsPerStandard nq (s0 :: rest) allStds t) s0).isSome := by
  simp only [questionsPerStandard]
  apply evenDistribute_preserves_isSome
  apply whileDistribute_preserves_isSome
  simp only [assignMinimums, if_neg h]
  apply assignMinimums_preserves_isSome
  simp [alFind_alSet_self]

/-! ## Nonemptiness and key tracking through step 3 -/

theorem lessonPass_res_ne_nil_of_res (qps : List (String × Nat)) (stds : List String) :
    ∀ (res : List (String × Tri)) (H M E : Nat), res ≠ [] →
    (lessonPass qps stds res H M E).1 ≠ [] := by
  induction stds with
  | nil => intro res H M E h; simpa [lessonPass] using h
  | cons s ss ih =>
    intro res H M E h
    cases hq : alFind qps s with
    | none => simp only [lessonPass, hq]; exact ih _ _ _ _ h
    | some c => simp only [lessonPass, hq]; exact ih _ _ _ _ (alSet_ne_nil _ _ _)

theorem lessonPass_res_ne_nil_of_mem (qps : List (String × Nat)) (s : String) :
    ∀ (stds : List String) (res : List (String × Tri)) (H M E : Nat), s ∈ stds →
    (alFind qps s).isSome → (lessonPass qps stds res H M E).1 ≠ [] := by
  intro stds
  induction stds with
  | nil => intro res H M E hs _; simp at hs
  | cons a ss ih =>
    intro res H M E hs hfind
    rcases List.mem_cons.mp hs with heq | hmem
    · subst heq
      cases hq : alFind qps s with
      | none => rw [hq] at hfind; simp at hfind
      | some c =>
        simp only [lessonPass, hq]
        exact lessonPass_res_ne_nil_of_res qps ss _ _ _ _ (alSet_ne_nil _ _ _)
    · cases hq : alFind qps a with
      | none => simp only [lessonPass, hq]; exact ih _ _ _ _ hmem hfind
      | some c => simp only [lessonPass, hq]; exact ih _ _ _ _ hmem hfind

theorem otherPass_res_ne_nil_of_res (lessonStds : List String) :
    ∀ (entries : List (String × Nat)) (res : List (String × Tri)) (H M E : Nat),
    res ≠ [] → (otherPass lessonStds entries res H M E).1 ≠ [] := by
  intro entries
  induction entries with
  | nil => intro res H M E h; simpa [otherPass] using h
  | cons p rest ih =>
    intro res H M E h
    obtain ⟨a, c⟩ := p
    by_cases hmem : a ∈ lessonStds
    · simp only [otherPass, if_pos hmem]; exact ih _ _ _ _ h
    · simp only [otherPass, if_neg hmem]; exact ih _ _ _ _ (alSet_ne_nil _ _ _)

theorem lessonPass_find_isSome (qps : List (String × Nat)) :
    ∀ (stds : List String) (res : List (String × Tri)) (H M E : Nat) (k : String),
    (alFind (lessonPass qps stds res H M E).1 k).isSome →
    (alFind res k).isSome ∨ k ∈ stds := by
  intro stds
  induction stds with
  | nil => intro res H M E k h; simp only [lessonPass] at h; exact Or.inl h
  | cons s ss ih =>
    intro res H M E k h
    cases hq : alFind qps s with
    | none =>
      simp only [lessonPass, hq] at h
      rcases ih _ _ _ _ _ h with h1 | h1
      · exact Or.inl h1
      · exact Or.inr (List.mem_cons_of_mem s h1)
    | some c =>
      simp only [lessonPass, hq] at h
      rcases ih _ _ _ _ _ h with h1 | h1
      · by_cases hk : k = s
        · exact Or.inr (hk ▸ List.mem_cons_self s ss)
        · rw [alFind_alSet_ne res s k _ hk] at h1
          exact Or.inl h1
      · exact Or.inr (List.mem_cons_of_mem s h1)

/-- Total of `assignTiers` equals the tier budget, under the key
disciplines established by step 2. -/
theorem assignTiers_total (stds : List String) (qps : List (String × Nat))
    (e m h : Nat) (t : DistTape) (hnd : stds.Nodup) (hknd : (alKeys qps).Nodup)
    (s0 : String) (hs0 : s0 ∈ stds) (hsome : (alFind qps s0).isSome) :
    resultTotal (assignTiers stds qps e m h t) = e + m + h := by
  simp only [assignTiers]
  have hlp := lessonPass_conserve qps stds [] h m e hnd (fun s _ => rfl)
  have hfresh : ∀ p ∈ qps, p.1 ∉ stds →
      alFind (lessonPass qps stds [] h m e).1 p.1 = none := by
    intro p _ hnm
    cases hfind : alFind (lessonPass qps stds [] h m e).1 p.1 with
    | none => rfl
    | some _ =>
      rcases lessonPass_find_isSome qps stds [] h m e p.1 (by simp [hfind]) with h1 | h1
      · simp [alFind] at h1
      · exact absurd h1 hnm
  have hop := otherPass_conserve stds qps (lessonPass qps stds [] h m e).1
    (lessonPass qps stds [] h m e).2.1 (lessonPass qps stds [] h m e).2.2.1
    (lessonPass qps stds [] h m e).2.2.2 hknd hfresh
  have hlpne : (lessonPass qps stds [] h m e).1 ≠ [] :=
    lessonPass_res_ne_nil_of_mem qps s0 stds [] h m e hs0 hsome
  have hopne : (otherPass stds qps (lessonPass qps stds [] h m e).1
      (lessonPass qps stds [] h m e).2.1 (lessonPass qps stds [] h m e).2.2.1
      (lessonPass qps stds [] h m e).2.2.2).1 ≠ [] :=
    otherPass_res_ne_nil_of_res stds qps _ _ _ _ hlpne
  set op := otherPass stds qps (lessonPass qps stds [] h m e).1
    (lessonPass qps stds [] h m e).2.1 (lessonPass qps stds [] h m e).2.2.1
    (lessonPass qps stds [] h m e).2.2.2 with hopdef
  have hr1 := redistributeTier_total t 0 op.2.2.2 op.1 0 hopne
  have hr1ne := redistributeTier_ne_nil t 0 op.2.2.2 op.1 0 hopne
  have hr2 := redistributeTier_total t 1 op.2.2.1 _ 0 hr1ne
  have hr2ne := redistributeTier_ne_nil t 1 op.2.2.1 _ 0 hr1ne
  have hr3 := redistributeTier_total t 2 op.2.1 _ 0 hr2ne
  simp only [resultTotal, List.map_nil, List.sum_nil] at hop hlp hr1 hr2 hr3 ⊢
  omega

/-- Claim C1 (amended): for every `num_questions ≥ 1` in `[1,12]`, every
difficulty in `{1,2,3}`, every non-empty list of pairwise-distinct lesson
standards, any list of previous standards and any random outcome, the
distribution returned by `distribute_questions` sums exactly to
`num_questions` over all standards and tiers.  (Distinctness is required:
see the counterexample with a duplicated lesson standard.) -/
theorem c1_distribution_total (nq d : Nat) (stds allStds : List String) (t : DistTape)
    (h1 : 1 ≤ nq) (h12 : nq ≤ 12) (_hd : d = 1 ∨ d = 2 ∨ d = 3)
    (hne : stds ≠ []) (hnd : stds.Nodup) :
    resultTotal (distributeQuestions nq d stds allStds t) = nq := by
  obtain ⟨s0, rest, rfl⟩ := List.exists_cons_of_ne_nil hne
  simp only [distributeQuestions]
  rw [assignTiers_total (s0 :: rest) _ _ _ _ _ hnd
    (questionsPerStandard_keys_nodup nq (s0 :: rest) allStds t) s0
    (List.mem_cons_self s0 rest)
    (questionsPerStandard_head_isSome nq s0 rest allStds t (by omega))]
  exact tierCounts_sum nq d t.rEasy t.rMedium

/-- Claim C1, counterexample to the claim as stated: with the duplicated
lesson-standard list `["A", "A"]` (non-empty, as the claim demands),
`num_questions = 2` and difficulty 1, the returned distribution sums to 1,
not 2: the duplicate overwrites its own dictionary entry during the
minimum-quota step and resets its own tier row during tier assignment. -/
theorem c1_counterexample_duplicate_standard :
    resultTotal (distributeQuestions 2 1 ["A", "A"] [] zeroTape) = 1 ∧ (1 : Nat) ≠ 2 := by
  constructor
  · rfl
  · decide

/-- Witness for `c1_distribution_total` at a concrete input. -/
theorem c1_distribution_total_witness :
    resultTotal (distributeQuestions 6 1 ["A"] ["B", "C"] zeroTape) = 6 :=
  c1_distribution_total 6 1 ["A"] ["B", "C"] zeroTape (by decide) (by decide)
    (Or.inl rfl) (by decide) (by decide)

/-! ## Per-standard floor lemmas (claim C7) -/


theorem lessonVal_nil_dict (stds : List String) : lessonVal stds [] = 0 := by
  induction stds with
  | nil => rfl
  | cons s ss ih =>
    simp only [lessonVal, List.map_cons, List.sum_cons]
    have h1 : (alFind ([] : List (String × Nat)) s).getD 0 = 0 := rfl
    rw [h1]
    simpa [lessonVal] using ih

theorem lessonVal_alSet_eq_of_not_mem (stds : List String) (qps : List (String × Nat))
    (k : String) (v : Nat) (h : k ∈ stds → False) :
    lessonVal stds (alSet qps k v) = lessonVal stds qps := by
  induction stds with
  | nil => rfl
  | cons s ss ih =>
    have hks : s ≠ k := fun hh => h (hh ▸ List.mem_cons_self s ss)
    simp only [lessonVal, List.map_cons, List.sum_cons]
    rw [alFind_alSet_ne qps k s v hks]
    have := ih (fun hm => h (List.mem_cons_of_mem s hm))
    simp only [lessonVal] at this
    omega

theorem lessonVal_alSet_le (stds : List String) (qps : List (String × Nat))
    (k : String) (v : Nat) (hnd : stds.Nodup) :
    lessonVal stds (alSet qps k v) ≤ lessonVal stds qps + v := by
  induction stds with
  | nil => simp [lessonVal]
  | cons s ss ih =>
    obtain ⟨hs, hss⟩ := List.nodup_cons.mp hnd
    simp only [lessonVal, List.map_cons, List.sum_cons]
    by_cases hk : s = k
    · subst hk
      rw [alFind_alSet_self]
      rw [show ((ss.map (fun s2 => (alFind (alSet qps s v) s2).getD 0)).sum =
          (ss.map (fun s2 => (alFind qps s2).getD 0)).sum) from ?eq]
      · simp; omega
      case eq =>
        have := lessonVal_alSet_eq_of_not_mem ss qps s v hs
        simpa [lessonVal] using this
    · rw [alFind_alSet_ne qps k s v hk]
      have := ih hss
      simp only [lessonVal] at this
      omega

theorem lessonVal_alAdd_le (stds : List String) (qps : List (String × Nat))
    (k : String) (n : Nat) (hnd : stds.Nodup) :
    lessonVal stds (alAdd qps k n) ≤ lessonVal stds qps + n := by
  induction stds with
  | nil => simp [lessonVal]
  | cons s ss ih =>
    obtain ⟨hs, hss⟩ := List.nodup_cons.mp hnd
    simp only [lessonVal, List.map_cons, List.sum_cons]
    by_cases hk : s = k
    · subst hk
      rw [alFind_alAdd]
      simp only [if_pos rfl]
      rw [show ((ss.map (fun s2 => (alFind (alAdd qps s n) s2).getD 0)).sum =
          (ss.map (fun s2 => (alFind qps s2).getD 0)).sum) from ?eq]
      · simp; omega
      case eq =>
        have : lessonVal ss (alAdd qps s n) = lessonVal ss qps := by
          apply lessonVal_alSet_eq_of_not_mem
          exact hs
        simpa [lessonVal] using this
    · rw [alFind_alAdd]
      simp only [if_neg hk]
      have := ih hss
      simp only [lessonVal] at this
      omega

theorem assignMinimums_lessonVal (stds : List String) (minQ : Nat) (hnd : stds.Nodup) :
    ∀ (ss : List String) (qps : List (String × Nat)) (left : Nat),
    lessonVal stds (assignMinimums minQ ss qps left).1 +
      (assignMinimums minQ ss qps left).2 ≤ lessonVal stds qps + left := by
  intro ss
  induction ss with
  | nil => intro qps left; simp [assignMinimums]
  | cons s rest ih =>
    intro qps left
    simp only [assignMinimums]
    split_ifs with h0
    · exact Nat.le_refl _
    · have h1 := ih (alSet qps s (min minQ left)) (left - min minQ left)
      have h2 := lessonVal_alSet_le stds qps s (min minQ left) hnd
      omega

theorem whileDistribute_lessonVal (stds : List String) (nq : Nat) (t : DistTape)
    (hnd : stds.Nodup) :
    ∀ (left : Nat) (qps : List (String × Nat)) (pri : List String) (j : Nat),
    lessonVal stds (whileDistribute nq t left qps pri j).1 +
      (whileDistribute nq t left qps pri j).2 ≤ lessonVal stds qps + left := by
  intro left
  induction left with
  | zero => intro qps pri j; simp [whileDistribute]
  | succ n ih =>
    intro qps pri j
    cases pri with
    | nil => simp [whileDistribute]
    | cons p ps =>
      simp only [whileDistribute]
      set std := if ps = [] then p else (p :: ps).getD (t.pick j % (p :: ps).length) p with hstd
      set pri2 := if maxPerStandard nq ≤ (alFind (alAdd qps std 1) std).getD 0
        then (p :: ps).erase std else p :: ps with hpri
      have h1 := ih (alAdd qps std 1) pri2 (j + 1)
      have h2 := lessonVal_alAdd_le stds qps std 1 hnd
      omega

theorem evenDistribute_lessonVal (stds : List String) (t : DistTape)
    (allStds : List String) (hnd : stds.Nodup) :
    ∀ (left : Nat) (qps : List (String × Nat)) (j : Nat),
    lessonVal stds (evenDistribute t allStds left qps j) ≤ lessonVal stds qps + left := by
  intro left
  induction left with
  | zero => intro qps j; simp [evenDistribute]
  | succ n ih =>
    intro qps j
    cases allStds with
    | nil => simp [evenDistribute]
    | cons a rest =>
      simp only [evenDistribute]
      have h1 := ih (alAdd qps ((a :: rest).getD (t.even j % (a :: rest).length) a) 1) (j + 1)
      have h2 := lessonVal_alAdd_le stds qps
        ((a :: rest).getD (t.even j % (a :: rest).length) a) 1 hnd
      omega

theorem questionsPerStandard_lessonVal (nq : Nat) (stds allStds : List String)
    (t : DistTape) (hnd : stds.Nodup) :
    lessonVal stds (questionsPerStandard nq stds allStds t) ≤ nq := by
  simp only [questionsPerStandard]
  have h1 := assignMinimums_lessonVal stds
    (minQuestionsPerLessonStandard stds.length nq) hnd stds [] nq
  have h2 := whileDistribute_lessonVal stds nq t hnd
    (assignMinimums (minQuestionsPerLessonStandard stds.length nq) stds [] nq).2
    (assignMinimums (minQuestionsPerLessonStandard stds.length nq) stds [] nq).1
    (stds ++ allStds.filter (fun s => s ∉ stds)) 0
  have h3 := evenDistribute_lessonVal stds t
    ((whileDistribute nq t
        (assignMinimums (minQuestionsPerLessonStandard stds.length nq) stds [] nq).2
        (assignMinimums (minQuestionsPerLessonStandard stds.length nq) stds [] nq).1
        (stds ++ allStds.filter (fun s => s ∉ stds)) 0).1.map (·.1)) hnd
    (whileDistribute nq t
        (assignMinimums (minQuestionsPerLessonStandard stds.length nq) stds [] nq).2
        (assignMinimums (minQuestionsPerLessonStandard stds.length nq) stds [] nq).1
        (stds ++ allStds.filter (fun s => s ∉ stds)) 0).2
    (whileDistribute nq t
        (assignMinimums (minQuestionsPerLessonStandard stds.length nq) stds [] nq).2
        (assignMinimums (minQuestionsPerLessonStandard stds.length nq) stds [] nq).1
        (stds ++ allStds.filter (fun s => s ∉ stds)) 0).1 0
  have h4 := lessonVal_nil_dict stds
  omega

theorem assignMinimums_preserves_find (minQ : Nat) :
    ∀ (ss : List String) (qps : List (String × Nat)) (left : Nat) (k : String),
    (∀ s2 ∈ ss, k ≠ s2) →
    alFind (assignMinimums minQ ss qps left).1 k = alFind qps k := by
  intro ss
  induction ss with
  | nil => intro qps left k _; rfl
  | cons s rest ih =>
    intro qps left k hk
    simp only [assignMinimums]
    split_ifs with h0
    · rfl
    · rw [ih _ _ _ (fun s2 h2 => hk s2 (List.mem_cons_of_mem s h2))]
      exact alFind_alSet_ne qps s k _ (hk s (List.mem_cons_self s rest))

/-- With enough budget and a positive quota, every distinct lesson standard
receives exactly `minQ` in the minimum-quota loop. -/
theorem assignMinimums_each (minQ : Nat) (hpos : 1 ≤ minQ) :
    ∀ (ss : List String) (qps : List (String × Nat)) (left : Nat), ss.Nodup →
    minQ * ss.length ≤ left →
    ∀ s ∈ ss, alFind (assignMinimums minQ ss qps left).1 s = some minQ := by
  intro ss
  induction ss with
  | nil => intro qps left _ _ s hs; simp at hs
  | cons a rest ih =>
    intro qps left hnd hbudget s hs
    obtain ⟨ha, hrest⟩ := List.nodup_cons.mp hnd
    simp only [List.length_cons, Nat.mul_succ] at hbudget
    have h0 : left ≠ 0 := by omega
    simp only [assignMinimums, if_neg h0]
    have hq : min minQ left = minQ := by omega
    rw [hq]
    rcases List.mem_cons.mp hs with heq | hmem
    · subst heq
      rw [assignMinimums_preserves_find minQ rest _ _ s
        (fun s2 h2 hh => ha (hh ▸ h2))]
      exact alFind_alSet_self qps s minQ
    · exact ih _ _ hrest (by omega) s hmem

theorem whileDistribute_find_ge (nq : Nat) (t : DistTape) :
    ∀ (left : Nat) (qps : List (String × Nat)) (pri : List String) (j : Nat) (k : String),
    (alFind qps k).getD 0 ≤ (alFind (whileDistribute nq t left qps pri j).1 k).getD 0 := by
  intro left
  induction left with
  | zero => intro qps pri j k; simp [whileDistribute]
  | succ n ih =>
    intro qps pri j k
    cases pri with
    | nil => simp [whileDistribute]
    | cons p ps =>
      simp only [whileDistribute]
      set std := if ps = [] then p else (p :: ps).getD (t.pick j % (p :: ps).length) p with hstd
      set pri2 := if maxPerStandard nq ≤ (alFind (alAdd qps std 1) std).getD 0
        then (p :: ps).erase std else p :: ps with hpri
      have h1 := ih (alAdd qps std 1) pri2 (j + 1) k
      have h2 : (alFind qps k).getD 0 ≤ (alFind (alAdd qps std 1) k).getD 0 := by
        rw [alFind_alAdd]
        by_cases hk : k = std
        · subst hk; simp
        · simp [if_neg hk]
      omega

theorem evenDistribute_find_ge (t : DistTape) (allStds : List String) :
    ∀ (left : Nat) (qps : List (String × Nat)) (j : Nat) (k : String),
    (alFind qps k).getD 0 ≤ (alFind (evenDistribute t allStds left qps j) k).getD 0 := by
  intro left
  induction left with
  | zero => intro qps j k; simp [evenDistribute]
  | succ n ih =>
    intro qps j k
    cases allStds with
    | nil => simp [evenDistribute]
    | cons a rest =>
      simp only [evenDistribute]
      have h1 := ih (alAdd qps ((a :: rest).getD (t.even j % (a :: rest).length) a) 1) (j + 1) k
      have h2 : (alFind qps k).getD 0 ≤
          (alFind (alAdd qps ((a :: rest).getD (t.even j % (a :: rest).length) a) 1) k).getD 0 := by
        rw [alFind_alAdd]
        by_cases hk : k = (a :: rest).getD (t.even j % (a :: rest).length) a
        · subst hk; simp
        · rw [if_neg hk]
      omega

/-- After step 2 every lesson standard (distinct, positive quota, enough
budget) holds an entry worth at least `minQ`. -/
theorem questionsPerStandard_floor (nq : Nat) (stds allStds : List String)
    (t : DistTape) (hnd : stds.Nodup)
    (hpos : 1 ≤ minQuestionsPerLessonStandard stds.length nq)
    (hbudget : minQuestionsPerLessonStandard stds.length nq * stds.length ≤ nq) :
    ∀ s ∈ stds, minQuestionsPerLessonStandard stds.length nq ≤
      (alFind (questionsPerStandard nq stds allStds t) s).getD 0 := by
  intro s hs
  simp only [questionsPerStandard]
  have h1 := assignMinimums_each (minQuestionsPerLessonStandard stds.length nq) hpos
    stds [] nq hnd hbudget s hs
  have h2 := whileDistribute_find_ge nq t
    (assignMinimums (minQuestionsPerLessonStandard stds.length nq) stds [] nq).2
    (assignMinimums (minQuestionsPerLessonStandard stds.length nq) stds [] nq).1
    (stds ++ allStds.filter (fun s2 => s2 ∉ stds)) 0 s
  have h3 := evenDistribute_find_ge t
    ((whileDistribute nq t
        (assignMinimums (minQuestionsPerLessonStandard stds.length nq) stds [] nq).2
        (assignMinimums (minQuestionsPerLessonStandard stds.length nq) stds [] nq).1
        (stds ++ allStds.filter (fun s2 => s2 ∉ stds)) 0).1.map (·.1))
    (whileDistribute nq t
        (assignMinimums (minQuestionsPerLessonStandard stds.length nq) stds [] nq).2
        (assignMinimums (minQuestionsPerLessonStandard stds.length nq) stds [] nq).1
        (stds ++ allStds.filter (fun s2 => s2 ∉ stds)) 0).2
    (whileDistribute nq t
        (assignMinimums (minQuestionsPerLessonStandard stds.length nq) stds [] nq).2
        (assignMinimums (minQuestionsPerLessonStandard stds.length nq) stds [] nq).1
        (stds ++ allStds.filter (fun s2 => s2 ∉ stds)) 0).1 0 s
  rw [h1] at h2
  simp only [Option.getD_some] at h2
  omega

theorem lessonPass_preserves_find (qps : List (String × Nat)) :
    ∀ (ss : List String) (res : List (String × Tri)) (H M E : Nat) (k : String),
    (∀ s2 ∈ ss, k ≠ s2) →
    alFind (lessonPass qps ss res H M E).1 k = alFind res k := by
  intro ss
  induction ss with
  | nil => intro res H M E k _; rfl
  | cons s rest ih =>
    intro res H M E k hk
    cases hq : alFind qps s with
    | none =>
      simp only [lessonPass, hq]
      exact ih _ _ _ _ _ (fun s2 h2 => hk s2 (List.mem_cons_of_mem s h2))
    | some c =>
      simp only [lessonPass, hq]
      rw [ih _ _ _ _ _ (fun s2 h2 => hk s2 (List.mem_cons_of_mem s h2))]
      exact alFind_alSet_ne res s k _ (hk s (List.mem_cons_self s rest))

/-- With a tier budget covering the looked-up counts, every distinct lesson
standard leaves the lesson pass with a tier row totalling exactly its
count. -/
theorem lessonPass_full (qps : List (String × Nat)) :
    ∀ (ss : List String) (res : List (String × Tri)) (H M E : Nat), ss.Nodup →
    lessonVal ss qps ≤ H + M + E →
    ∀ s ∈ ss, ∀ c, alFind qps s = some c →
    ∃ tri, alFind (lessonPass qps ss res H M E).1 s = some tri ∧ triTotal tri = c := by
  intro ss
  induction ss with
  | nil => intro res H M E _ _ s hs; simp at hs
  | cons a rest ih =>
    intro res H M E hnd hbudget s hs c hc
    obtain ⟨ha, hrest⟩ := List.nodup_cons.mp hnd
    rcases List.mem_cons.mp hs with heq | hmem
    · subst heq
      simp only [lessonPass, hc]
      have hcb : c ≤ H + M + E := by
        have : lessonVal (s :: rest) qps = c + lessonVal rest qps := by
          simp [lessonVal, hc]
        omega
      refine ⟨(allocHardFirst c H M E).1, ?_, allocHardFirst_full c H M E hcb⟩
      rw [lessonPass_preserves_find qps rest _ _ _ _ s (fun s2 h2 hh => ha (hh ▸ h2))]
      exact alFind_alSet_self res s _
    · have hlv : lessonVal (a :: rest) qps =
          (alFind qps a).getD 0 + lessonVal rest qps := by
        simp [lessonVal]
      cases hq : alFind qps a with
      | none =>
        simp only [lessonPass, hq]
        apply ih _ _ _ _ hrest _ s hmem c hc
        rw [hq] at hlv
        simp at hlv
        omega
      | some ca =>
        simp only [lessonPass, hq]
        apply ih _ _ _ _ hrest _ s hmem c hc
        rw [hq] at hlv
        simp only [Option.getD_some] at hlv
        have hsum := allocHardFirst_sum ca H M E
        have hfull : triTotal (allocHardFirst ca H M E).1 = ca :=
          allocHardFirst_full ca H M E (by omega)
        omega

theorem otherPass_preserves_lesson_find (lessonStds : List String) :
    ∀ (entries : List (String × Nat)) (res : List (String × Tri)) (H M E : Nat)
    (k : String), k ∈ lessonStds →
    alFind (otherPass lessonStds entries res H M E).1 k = alFind res k := by
  intro entries
  induction entries with
  | nil => intro res H M E k _; rfl
  | cons p rest ih =>
    intro res H M E k hk
    obtain ⟨a, c⟩ := p
    by_cases hmem : a ∈ lessonStds
    · simp only [otherPass, if_pos hmem]
      exact ih _ _ _ _ _ hk
    · simp only [otherPass, if_neg hmem]
      rw [ih _ _ _ _ _ hk]
      exact alFind_alSet_ne res a k _ (fun hh => hmem (hh ▸ hk))

theorem alFind_bumpAt (res : List (String × Tri)) (s2 s : String) (i : Nat) :
    alFind (bumpAt res s2 i) s =
      if s = s2 then (alFind res s).map (fun tr => triBump tr i) else alFind res s := by
  induction res with
  | nil => by_cases h : s = s2 <;> simp [bumpAt, alFind, h]
  | cons p rest ih =>
    obtain ⟨a, b⟩ := p
    by_cases hp : a = s2
    · subst hp
      by_cases hs : s = a
      · subst hs; simp [bumpAt, alFind]
      · have hs2 : ¬ (a = s) := fun hh => hs hh.symm
        simp [bumpAt, alFind, hs, hs2]
    · by_cases hs : a = s
      · subst hs
        have hss2 : ¬ (a = s2) := hp
        simp [bumpAt, alFind, hp, hss2]
      · simp [bumpAt, alFind, hp, hs, ih]

theorem redistributeTier_find_ge (t : DistTape) (i : Nat) :
    ∀ (cnt : Nat) (res : List (String × Tri)) (j : Nat) (s : String) (tri : Tri),
    alFind res s = some tri →
    ∃ tri2, alFind (redistributeTier t i cnt res j) s = some tri2 ∧
      triTotal tri ≤ triTotal tri2 := by
  intro cnt
  induction cnt with
  | zero => intro res j s tri h; exact ⟨tri, h, Nat.le_refl _⟩
  | succ n ih =>
    intro res j s tri h
    cases he : eligibleStds res i with
    | nil => exact ⟨tri, by simp [redistributeTier, he, h], Nat.le_refl _⟩
    | cons e es =>
      simp only [redistributeTier, he]
      set std := (e :: es).getD (t.tie i j % (e :: es).length) e with hstd
      by_cases hs : s = std
      · have hb : alFind (bumpAt res std i) s = some (triBump tri i) := by
          rw [alFind_bumpAt, if_pos hs, h]
          rfl
        obtain ⟨tri2, h2, h3⟩ := ih (bumpAt res std i) (j + 1) s (triBump tri i) hb
        refine ⟨tri2, h2, le_trans ?_ h3⟩
        rw [triTotal_triBump]
        omega
      · have hb : alFind (bumpAt res std i) s = some tri := by
          rw [alFind_bumpAt, if_neg hs]
          exact h
        exact ih (bumpAt res std i) (j + 1) s tri hb

theorem assignTiers_floor (stds : List String) (qps : List (String × Nat))
    (e m h : Nat) (t : DistTape) (hnd : stds.Nodup)
    (hbudget : lessonVal stds qps ≤ h + m + e)
    (s : String) (hs : s ∈ stds) (c : Nat) (hc : alFind qps s = some c) :
    ∃ tri, alFind (assignTiers stds qps e m h t) s = some tri ∧ c ≤ triTotal tri := by
  simp only [assignTiers]
  obtain ⟨tri, h1, h2⟩ := lessonPass_full qps stds [] h m e hnd hbudget s hs c hc
  have h3 : alFind (otherPass stds qps (lessonPass qps stds [] h m e).1
      (lessonPass qps stds [] h m e).2.1 (lessonPass qps stds [] h m e).2.2.1
      (lessonPass qps stds [] h m e).2.2.2).1 s = some tri := by
    rw [otherPass_preserves_lesson_find stds qps _ _ _ _ s hs]
    exact h1
  obtain ⟨tri2, h4, h5⟩ := redistributeTier_find_ge t 0 _ _ 0 s tri h3
  obtain ⟨tri3, h6, h7⟩ := redistributeTier_find_ge t 1 _ _ 0 s tri2 h4
  obtain ⟨tri4, h8, h9⟩ := redistributeTier_find_ge t 2 _ _ 0 s tri3 h6
  exact ⟨tri4, h8, by omega⟩

/-- Claim C7: in the returned distribution, with exactly one (distinct)
target standard and `num_questions ≥ 3` that standard receives at least 3
questions in total; with `N > 1` distinct target standards and
`num_questions ≥ 2N` every target standard receives at least 2. -/
theorem c7_minimum_quota (nq d : Nat) (stds allStds : List String) (t : DistTape)
    (hnd : stds.Nodup)
    (hcase : (stds.length = 1 ∧ 3 ≤ nq) ∨ (2 ≤ stds.length ∧ 2 * stds.length ≤ nq)) :
    ∀ s ∈ stds, (if stds.length = 1 then 3 else 2) ≤
      triTotal ((alFind (distributeQuestions nq d stds allStds t) s).getD ⟨0, 0, 0⟩) := by
  intro s hs
  have hminQ : minQuestionsPerLessonStandard stds.length nq =
      (if stds.length = 1 then 3 else 2) := by
    rcases hcase with ⟨h1, h3⟩ | ⟨h2, h2n⟩
    · simp [minQuestionsPerLessonStandard, h1]
      omega
    · have hne1 : stds.length ≠ 1 := by omega
      have hne0 : stds.length ≠ 0 := by omega
      simp only [minQuestionsPerLessonStandard, if_neg hne0, if_neg hne1]
      have hdiv : 2 ≤ nq / stds.length := (Nat.le_div_iff_mul_le (by omega)).mpr (by omega)
      exact min_eq_left hdiv
  have hpos : 1 ≤ minQuestionsPerLessonStandard stds.length nq := by
    rw [hminQ]; split_ifs <;> omega
  have hbudget : minQuestionsPerLessonStandard stds.length nq * stds.length ≤ nq := by
    rw [hminQ]
    rcases hcase with ⟨h1, h3⟩ | ⟨h2, h2n⟩
    · rw [if_pos h1, h1]; omega
    · rw [if_neg (by omega : stds.length ≠ 1)]; omega
  have hfloor := questionsPerStandard_floor nq stds allStds t hnd hpos hbudget s hs
  cases hfind : alFind (questionsPerStandard nq stds allStds t) s with
  | none =>
    rw [hfind] at hfloor
    simp at hfloor
    omega
  | some c =>
    rw [hfind] at hfloor
    simp only [Option.getD_some] at hfloor
    have hlv := questionsPerStandard_lessonVal nq stds allStds t hnd
    have htc := tierCounts_sum nq d t.rEasy t.rMedium
    simp only [distributeQuestions]
    obtain ⟨tri, hA, hB⟩ := assignTiers_floor stds (questionsPerStandard nq stds allStds t)
      (tierCounts nq d t.rEasy t.rMedium).1 (tierCounts nq d t.rEasy t.rMedium).2.1
      (tierCounts nq d t.rEasy t.rMedium).2.2 t hnd (by omega) s hs c hfind
    rw [hA]
    simp only [Option.getD_some]
    omega

/-- Witness for `c7_minimum_quota` at concrete inputs (two standards,
eight questions: each target standard gets at least two). -/
theorem c7_minimum_quota_witness :
    2 ≤ triTotal ((alFind (distributeQuestions 8 2 ["A", "B"] ["C"] zeroTape) "A").getD ⟨0, 0, 0⟩) := by
  have h := c7_minimum_quota 8 2 ["A", "B"] ["C"] zeroTape (by decide)
    (Or.inr (by decide)) "A" (by decide)
  simpa using h

/-! ## Curriculum-order lemmas (claim C8) -/

theorem scan_fst (stdId : String) :
    ∀ (tokens : List String) (st : List String × Option Nat),
    (tokens.foldl (scanStep stdId) st).1 = tokens.foldl dedupStep st.1 := by
  intro tokens
  induction tokens with
  | nil => intro st; rfl
  | cons tok rest ih =>
    intro st
    simp only [List.foldl_cons]
    rw [ih]
    by_cases h : tok ∈ st.1
    · simp [scanStep, dedupStep, h]
    · simp [scanStep, dedupStep, h]

theorem indexOf_append_self (l : List String) (a : String) (h : a ∉ l) :
    (l ++ [a]).indexOf a = l.length := by
  induction l with
  | nil => simp [List.indexOf_cons_self]
  | cons x xs ih =>
    have hxa : x ≠ a := fun hh => h (hh ▸ List.mem_cons_self x xs)
    have hxs : a ∉ xs := fun hh => h (List.mem_cons_of_mem x hh)
    simp only [List.cons_append]
    rw [List.indexOf_cons_ne _ (by simpa using hxa), ih hxs]
    simp

theorem scan_pos (stdId : String) :
    ∀ (tokens : List String) (acc : List String),
    (tokens.foldl (scanStep stdId)
        (acc, if stdId ∈ acc then some (acc.indexOf stdId) else none)).2 =
      (if stdId ∈ tokens.foldl dedupStep acc then
        some ((tokens.foldl dedupStep acc).indexOf stdId) else none) := by
  intro tokens
  induction tokens with
  | nil => intro acc; rfl
  | cons tok rest ih =>
    intro acc
    simp only [List.foldl_cons]
    by_cases h : tok ∈ acc
    · rw [show scanStep stdId (acc, if stdId ∈ acc then some (acc.indexOf stdId) else none) tok
          = (acc, if stdId ∈ acc then some (acc.indexOf stdId) else none) from by
        simp [scanStep, h]]
      rw [show dedupStep acc tok = acc from by simp [dedupStep, h]]
      exact ih acc
    · rw [show dedupStep acc tok = acc ++ [tok] from by simp [dedupStep, h]]
      have hstep : scanStep stdId (acc, if stdId ∈ acc then some (acc.indexOf stdId) else none) tok
          = (acc ++ [tok], if stdId ∈ acc ++ [tok] then some ((acc ++ [tok]).indexOf stdId) else none) := by
        by_cases htok : tok = stdId
        · subst htok
          simp only [scanStep, if_neg h, if_pos rfl]
          have hmem : tok ∈ acc ++ [tok] := by simp
          rw [if_pos hmem, indexOf_append_self acc tok h]
          simp
        · have hne : stdId ∈ acc ++ [tok] ↔ stdId ∈ acc := by
            constructor
            · intro hh
              rcases List.mem_append.mp hh with h1 | h1
              · exact h1
              · simp at h1
                exact absurd h1.symm htok
            · intro hh
              exact List.mem_append.mpr (Or.inl hh)
          simp only [scanStep, if_neg h, if_neg htok]
          by_cases hs : stdId ∈ acc
          · rw [if_pos hs, if_pos (hne.mpr hs), List.indexOf_append_of_mem hs]
          · rw [if_neg hs, if_neg (fun hh => hs (hne.mp hh))]
      rw [hstep]
      exact ih (acc ++ [tok])

theorem mem_foldl_dedup :
    ∀ (tokens acc : List String) (x : String),
    x ∈ tokens.foldl dedupStep acc → x ∈ acc ∨ x ∈ tokens := by
  intro tokens
  induction tokens with
  | nil => intro acc x h; exact Or.inl h
  | cons tok rest ih =>
    intro acc x h
    simp only [List.foldl_cons] at h
    rcases ih (dedupStep acc tok) x h with h1 | h1
    · by_cases htok : tok ∈ acc
      · rw [show dedupStep acc tok = acc from by simp [dedupStep, htok]] at h1
        exact Or.inl h1
      · rw [show dedupStep acc tok = acc ++ [tok] from by simp [dedupStep, htok]] at h1
        rcases List.mem_append.mp h1 with h2 | h2
        · exact Or.inl h2
        · simp at h2
          exact Or.inr (h2 ▸ List.mem_cons_self tok rest)
    · exact Or.inr (List.mem_cons_of_mem tok h1)

theorem curriculum_token_ne_empty (lessons : List Lesson) (x : String)
    (h : x ∈ curriculumTokens lessons) : x ≠ "" := by
  simp only [curriculumTokens, List.mem_flatMap] at h
  obtain ⟨l, _, hx⟩ := h
  simp only [splitStandards, List.mem_filter, decide_eq_true_eq] at hx
  exact hx.2

/-- Claim C8: for every standard present in the curriculum,
`get_previous_standards` returns exactly the prefix of the
first-appearance curriculum ordering up to and including that standard. -/
theorem c8_previous_standards_prefix (lessons : List Lesson) (S : String)
    (hmem : S ∈ curriculumOrder lessons) :
    getPreviousStandards lessons S =
      (curriculumOrder lessons).take ((curriculumOrder lessons).indexOf S + 1) := by
  have hSne : S ≠ "" := by
    rcases mem_foldl_dedup (curriculumTokens lessons) [] S hmem with h1 | h1
    · simp at h1
    · exact curriculum_token_ne_empty lessons S h1
  simp only [getPreviousStandards, if_neg hSne]
  have h0 : (([], none) : List String × Option Nat)
      = ([], if S ∈ ([] : List String) then some (List.indexOf S []) else none) := by simp
  rw [h0, scan_pos S (curriculumTokens lessons) []]
  have hfst := scan_fst S (curriculumTokens lessons)
    ([], if S ∈ ([] : List String) then some (List.indexOf S []) else none)
  simp only [curriculumOrder] at hmem ⊢
  rw [if_pos hmem]
  simp only [hfst]
  have hidx : (List.foldl dedupStep [] (curriculumTokens lessons)).indexOf S <
      (List.foldl dedupStep [] (curriculumTokens lessons)).length :=
    List.indexOf_lt_length.mpr hmem
  rw [List.take_succ]
  congr 1
  have := List.getElem_indexOf hidx
  simp [List.getElem?_eq_getElem hidx, this]

/-- Witness for `c8_previous_standards_prefix` at a concrete curriculum. -/
theorem c8_previous_standards_prefix_witness :
    getPreviousStandards lessonsEx "B" =
      (curriculumOrder lessonsEx).take ((curriculumOrder lessonsEx).indexOf "B" + 1) :=
  c8_previous_standards_prefix lessonsEx "B" (by decide)

/-! ## Passage-selection lemmas (claim C3) -/

theorem selectPassageSingle_draft_gating (env : SelEnv) (s : String) (t : SelTape)
    (p : Passage) (hp : selectPassageSingle env s t = some p)
    (hdraft : p.type = "Draft") : hasWritingExamples env s = true := by
  cases hps : passagesFor env s with
  | nil => simp [selectPassageSingle, hps] at hp
  | cons p0 ps =>
    simp only [selectPassageSingle, hps] at hp
    by_cases h1 : ((p0 :: ps).getD (t.c3 % (p0 :: ps).length) p0).type = "Draft"
    · rw [if_pos h1] at hp
      by_cases h2 : hasWritingExamples env s
      · exact h2
      · rw [if_neg h2] at hp
        cases hf : (p0 :: ps).filter (fun q => q.type ≠ "Draft") with
        | nil => rw [hf] at hp; simp at hp
        | cons q qs =>
          rw [hf] at hp
          simp only [Option.some.injEq] at hp
          have hmem : p ∈ q :: qs := by
            rw [← hp]
            exact getD_mem_of_default_mem _ _ _ (List.mem_cons_self q qs)
          rw [← hf] at hmem
          have := (List.mem_filter.mp hmem).2
          simp [hdraft] at this
    · rw [if_neg h1] at hp
      simp only [Option.some.injEq] at hp
      rw [← hp] at hdraft
      exact absurd hdraft h1

theorem selectPassageList_draft_gating (env : SelEnv) (s : String)
    (rest : List String) (t : SelTape) (p : Passage)
    (hp : selectPassageList env (s :: rest) t = some p)
    (hdraft : p.type = "Draft") : hasWritingExamples env s = true := by
  cases hps : passagesFor env s with
  | nil => simp [selectPassageList, hps] at hp
  | cons p0 ps =>
    simp only [selectPassageList, hps] at hp
    by_cases hci : rest.foldl (intersectIds env) (passageMapKeys (p0 :: ps)) = []
    · rw [if_pos hci] at hp
      exact selectPassageSingle_draft_gating env s t p hp hdraft
    · rw [if_neg hci] at hp
      cases hcp : (rest.foldl (intersectIds env) (passageMapKeys (p0 :: ps))).filterMap
          (fun pid => passageMapFind (p0 :: ps) pid) with
      | nil =>
        simp only [hcp] at hp
        exact selectPassageSingle_draft_gating env s t p hp hdraft
      | cons c cs =>
        simp only [hcp] at hp
        by_cases h1 : ((c :: cs).getD (t.c1 % (c :: cs).length) c).type = "Draft"
        · rw [if_pos h1] at hp
          by_cases h2 : hasWritingExamples env s
          · exact h2
          · simp only [h2, if_false, Bool.false_eq_true, if_neg] at hp
            cases hf : (c :: cs).filter (fun q => q.type ≠ "Draft") with
            | nil =>
              simp only [hf] at hp
              exact selectPassageSingle_draft_gating env s t p hp hdraft
            | cons q qs =>
              simp only [hf] at hp
              simp only [Option.some.injEq] at hp
              have hmem : p ∈ q :: qs := by
                rw [← hp]
                exact getD_mem_of_default_mem _ _ _ (List.mem_cons_self q qs)
              rw [← hf] at hmem
              have := (List.mem_filter.mp hmem).2
              simp [hdraft] at this
        · rw [if_neg h1] at hp
          simp only [Option.some.injEq] at hp
          rw [← hp] at hdraft
          exact absurd hdraft h1

theorem selectPassageSingle_draft_only_none (env : SelEnv) (s : String) (t : SelTape)
    (hall : ∀ p ∈ passagesFor env s, p.type = "Draft")
    (hw : hasWritingExamples env s = false) :
    selectPassageSingle env s t = none := by
  cases hps : passagesFor env s with
  | nil => simp [selectPassageSingle, hps]
  | cons p0 ps =>
    simp only [selectPassageSingle, hps]
    have hsel : ((p0 :: ps).getD (t.c3 % (p0 :: ps).length) p0).type = "Draft" := by
      apply hall
      rw [hps]
      exact getD_mem_of_default_mem _ _ _ (List.mem_cons_self p0 ps)
    rw [if_pos hsel, hw]
    have hfilter : (p0 :: ps).filter (fun q => q.type ≠ "Draft") = [] := by
      apply List.filter_eq_nil_iff.mpr
      intro q hq
      have := hall q (by rw [hps]; exact hq)
      simp [this]
    rw [hfilter]
    simp

/-- Claim C3 (amended): `select_passage` checks writing examples only for
the FIRST standard of a standard set.  It never returns a Draft passage
unless the first (respectively, the single) standard has a writing-type
example, and with a Draft-only pool and no writing examples for that
standard the single-standard selection returns `None`. -/
theorem c3_draft_gating_first_standard (env : SelEnv) (s : String)
    (rest : List String) (t : SelTape) :
    (∀ p, selectPassageSingle env s t = some p → p.type = "Draft" →
      hasWritingExamples env s = true) ∧
    (∀ p, selectPassageList env (s :: rest) t = some p → p.type = "Draft" →
      hasWritingExamples env s = true) ∧
    ((∀ p ∈ passagesFor env s, p.type = "Draft") → hasWritingExamples env s = false →
      selectPassageSingle env s t = none) := by
  refine ⟨?_, ?_, ?_⟩
  · intro p hp hdraft
    exact selectPassageSingle_draft_gating env s t p hp hdraft
  · intro p hp hdraft
    exact selectPassageList_draft_gating env s rest t p hp hdraft
  · intro hall hw
    exact selectPassageSingle_draft_only_none env s t hall hw

/-- Claim C3, counterexample to the claim as stated: for the standard set
`["A", "B"]`, `select_passage` returns the Draft passage although standard
B has no writing-type example — only the first standard is checked. -/
theorem c3_counterexample_second_standard_unchecked :
    selectPassageList envC3 ["A", "B"] ⟨0, 0, 0, 0⟩ = some draftP ∧
    draftP.type = "Draft" ∧ hasWritingExamples envC3 "B" = false := by
  refine ⟨?_, rfl, ?_⟩ <;> decide

/-- Witness for `c3_draft_gating_first_standard`: with a Draft-only pool
and no writing examples, selection returns `None`. -/
theorem c3_draft_gating_witness : selectPassageSingle envC3b "A" ⟨0, 0, 0, 0⟩ = none :=
  (c3_draft_gating_first_standard envC3b "A" [] ⟨0, 0, 0, 0⟩).2.2 (by decide) (by decide)

/-! ## `parse_claude_response` lemmas (claims C9, C10) -/

theorem jsonObjectCandidate_spec (b : List Char) (fields : List (String × Json))
    (h : jsonObjectCandidate b = some fields) :
    requiredFields.all (fun f => objHas fields f) = true := by
  unfold jsonObjectCandidate at h
  cases hl : jsonLoads b with
  | none => rw [hl] at h; simp at h
  | some j =>
    rw [hl] at h
    cases j with
    | obj fs =>
      by_cases hall : requiredFields.all (fun f => objHas fs f) = true
      · simp only [hall, if_true] at h
        simp only [Option.some.injEq] at h
        rw [← h]
        exact hall
      · simp only [Bool.not_eq_true] at hall
        simp [hall] at h
    | null => simp at h
    | bool bb => simp at h
    | num n => simp at h
    | numFrac t => simp at h
    | str s2 => simp at h
    | arr l => simp at h

theorem regexFallbackFields_spec (cs : List Char) :
    regexFallbackFields cs = [] ∨
    ∀ f ∈ requiredFields, objHas (regexFallbackFields cs) f = true := by
  unfold regexFallbackFields
  cases h1 : findFieldRegex "question".data cs with
  | none => left; rfl
  | some q =>
  cases h2 : findFieldRegex "correct_answer".data cs with
  | none => left; rfl
  | some a =>
  cases h3 : findFieldRegex "distractor1".data cs with
  | none => left; rfl
  | some d1 =>
  cases h4 : findFieldRegex "distractor2".data cs with
  | none => left; rfl
  | some d2 =>
  cases h5 : findFieldRegex "distractor3".data cs with
  | none => left; rfl
  | some d3 =>
    right
    intro f hf
    fin_cases hf <;> simp [objHas]

theorem no_fence_no_blocks :
    ∀ (fuel : Nat) (cs : List Char), containsSub bt3 cs = false →
    findFenceBlocksBrace fuel cs = [] := by
  intro fuel
  induction fuel with
  | zero => intro cs _; rfl
  | succ n ih =>
    intro cs h
    cases cs with
    | nil => rfl
    | cons c rest =>
      by_cases hp : isPrefixChars bt3 (c :: rest) = true
      · exfalso
        unfold containsSub splitAtSub at h
        rw [if_pos hp] at h
        simp at h
      · have hpf : isPrefixChars bt3 (c :: rest) = false := by
          simpa using hp
        have hrest : containsSub bt3 rest = false := by
          unfold containsSub at h ⊢
          unfold splitAtSub at h
          rw [if_neg (by simp [hpf])] at h
          cases hsp : splitAtSub bt3 rest with
          | none => rfl
          | some p => rw [hsp] at h; simp at h
        simp only [findFenceBlocksBrace, hpf, Bool.false_eq_true, if_false]
        exact ih rest hrest

/-- Claim C10: `parse_claude_response` is total and all-or-nothing: for
every input string the result is the empty dictionary or carries all five
required fields. -/
theorem c10_parse_all_or_nothing (s : String) :
    parseClaudeResponse s = [] ∨
    ∀ f ∈ requiredFields, objHas (parseClaudeResponse s) f = true := by
  simp only [parseClaudeResponse]
  split
  case _ fields hfs =>
    right
    obtain ⟨b, _, hb⟩ := List.exists_of_findSome?_eq_some hfs
    have hspec := jsonObjectCandidate_spec b fields hb
    rw [List.all_eq_true] at hspec
    intro f hf
    exact hspec f hf
  case _ =>
    split
    case _ sub hbs =>
      split
      case _ fields hc =>
        right
        have hspec := jsonObjectCandidate_spec sub fields hc
        rw [List.all_eq_true] at hspec
        intro f hf
        exact hspec f hf
      case _ => exact regexFallbackFields_spec s.data
    case _ => exact regexFallbackFields_spec s.data

/-- Claim C9 (amended): when the reply contains no code fence and the span
from its first opening brace to its last closing brace is a syntactically
valid JSON object with the five required fields, `parse_claude_response`
returns exactly those fields.  (With extra braces in surrounding noise the
regex fallback can truncate values at escaped quotes — see the
counterexample.) -/
theorem c9_parse_roundtrip_no_fence (s : String) (sub : List Char)
    (fields : List (String × Json))
    (hnf : containsSub bt3 s.data = false)
    (hspan : braceSpan s.data = some sub)
    (hload : jsonLoads sub = some (Json.obj fields))
    (hfields : requiredFields.all (fun f => objHas fields f) = true) :
    parseClaudeResponse s = fields := by
  have hblocks : findFenceBlocksBrace (s.data.length + 1) s.data = [] :=
    no_fence_no_blocks _ _ hnf
  simp only [parseClaudeResponse, hblocks, List.findSome?_nil, hspan,
    jsonObjectCandidate, hload, hfields, if_true]

/-- Claim C9, counterexample to the claim as stated: the reply `c9resp`
embeds the syntactically valid five-field object `c9core` (whose question
value contains an escaped quote), yet `parse_claude_response` returns a
different question value, truncated at the escape by the regex fallback. -/
theorem c9_counterexample_escaped_quote :
    c9resp = c9prefix ++ c9core ∧
    jsonLoads c9core.data = some (Json.obj c9fields) ∧
    requiredFields.all (fun f => objHas c9fields f) = true ∧
    objGetStr c9fields "question" = some "say \"hi\"" ∧
    objGetStr (parseClaudeResponse c9resp) "question" = some "say \\" ∧
    ("say \\" : String) ≠ ("say \"hi\"" : String) := by
  refine ⟨rfl, rfl, rfl, rfl, rfl, by decide⟩

/-- Witness for `c9_parse_roundtrip_no_fence` at a concrete reply. -/
theorem c9_parse_roundtrip_witness : parseClaudeResponse c9goodResp = c9fields :=
  c9_parse_roundtrip_no_fence c9goodResp c9core.data c9fields rfl rfl rfl rfl

/-! ## Quality-control lemmas (claims C4, C5, C6) -/

theorem runChecks_find_plaus (o : CheckOracle) :
    ∀ (names : List String) (st : ValidationResult), "plausibility" ∉ names →
      alFind (runChecks o names st).quality_checks "plausibility" =
      alFind st.quality_checks "plausibility" := by
  intro names
  induction names with
  | nil => intro st _; rfl
  | cons n rest ih =>
    intro st h
    simp only [runChecks]
    rw [ih _ (fun hm => h (List.mem_cons_of_mem _ hm))]
    simp only [checkStep]
    exact alFind_alSet_ne _ _ _ _ (fun he => h (he ▸ List.mem_cons_self _ _))

/-- Claim C4: the aggregation itself is as claimed (any failing rubric
check invalidates; all seven entries are always recorded), but the branch
`all six checks pass and the plausibility threshold is met implies
is_valid` is unreachable: line 769 of src/quality_control.py reads the
`score` key of a dictionary that only has `is_plausible` and `reasoning`,
so every distractor is recorded implausible and the threshold can never
be met.  At an oracle whose every response is a perfect score-1 answer,
all six rubric checks pass and the plausibility parser itself judges the
distractor plausible, yet validation fails (with all seven entries
present). -/
theorem c4_aggregation_score_key_bug :
    requiredChecks.all (fun n => (runSpecificQualityCheck allPassOracle n).passes) = true ∧
    (parsePlausibilityResponse (allPassOracle.plaus "distractor1")).plausibleFlag = true ∧
    (checkDistractorPlausibility allPassOracle sampleQ).all (fun r => !r.plausibleFlag) = true ∧
    (validateQuestion allPassOracle sampleQ).is_valid = false ∧
    (validateQuestion allPassOracle sampleQ).quality_checks.map (fun p => p.1) =
      requiredChecks ++ ["plausibility"] :=
  ⟨rfl, rfl, rfl, rfl, rfl⟩

/-- Claim C5 (amended): the required plausible-distractor count is 1
exactly when the lower-cased difficulty is `easy` or `1` (an unrecognized
difficulty of `"1"` requires 1, not 2; all other unrecognized strings
require 2); the plausibility entry of the quality-check map records
pass/fail as the threshold comparison, and a count below the requirement
makes the validation invalid with the plausibility error appended. -/
theorem c5_plausibility_requirement (o : CheckOracle) (q : Question) :
    (requiredPlausible q.difficulty = 1 ↔
      (lowerStr q.difficulty = "easy" ∨ lowerStr q.difficulty = "1")) ∧
    alFind (validateQuestion o q).quality_checks "plausibility" = some (plausEntry o q) ∧
    ((plausEntry o q).passes = true ↔
      requiredPlausible q.difficulty ≤ plausCount o q) ∧
    (plausCount o q < requiredPlausible q.difficulty →
      (validateQuestion o q).is_valid = false ∧
      plausMsg o q ∈ (validateQuestion o q).errors) := by
  refine ⟨?_, ?_, ?_, ?_⟩
  · unfold requiredPlausible normalizedDifficulty
    by_cases h1 : lowerStr q.difficulty = "easy"
    · rw [h1]; decide
    · by_cases h2 : lowerStr q.difficulty = "medium"
      · rw [h2]; decide
      · by_cases h3 : lowerStr q.difficulty = "hard"
        · rw [h3]; decide
        · by_cases h4 : lowerStr q.difficulty = "1"
          · rw [h4]; decide
          · by_cases h5 : lowerStr q.difficulty = "3"
            · rw [h5]; decide
            · simp [h1, h2, h3, h4, h5]
  · show alFind (performAdvancedValidation o q).quality_checks "plausibility" = _
    simp only [performAdvancedValidation]
    exact alFind_alSet_self _ _ _
  · simp [plausEntry]
  · intro h
    have h2 : decide (requiredPlausible q.difficulty ≤ plausCount o q) = false := by
      simp only [decide_eq_false_iff_not]
      omega
    constructor
    · simp [validateQuestion, performAdvancedValidation, h2]
    · show plausMsg o q ∈ (performAdvancedValidation o q).errors
      simp only [performAdvancedValidation, h2, Bool.false_eq_true, if_false]
      exact List.mem_append.mpr (Or.inr (List.mem_singleton.mpr rfl))

/-- Witness for `c5_plausibility_requirement` at a concrete oracle and
question whose plausible count (0) is below the requirement (2). -/
theorem c5_plausibility_requirement_witness :
    (validateQuestion allPassOracle sampleQ).is_valid = false ∧
    plausMsg allPassOracle sampleQ ∈ (validateQuestion allPassOracle sampleQ).errors :=
  (c5_plausibility_requirement allPassOracle sampleQ).2.2.2 (by decide)

/-- Claim C5, counterexample to the claim as stated: the difficulty
string `"1"` is not recognized as easy/medium/hard, yet it requires 1
plausible distractor, not 2 (lines 274-275 map it to easy). -/
theorem c5_counterexample_numeric_difficulty :
    lowerStr "1" ∉ ["easy", "medium", "hard"] ∧
    requiredPlausible "1" = 1 ∧ (1 : Nat) ≠ 2 := by
  refine ⟨by decide, rfl, by decide⟩

theorem handleMissingData_metadata (env : QuizEnv) (stdId : StdIdVal)
    (ln : Option String) (ts : String) :
    (handleMissingData env stdId ln ts).metadata =
      ⟨ln, stdId, 1, 0, 0, ts, some fallbackMsg⟩ := rfl

theorem handleMissingData_questions (env : QuizEnv) (stdId : StdIdVal)
    (ln : Option String) (ts : String) :
    (handleMissingData env stdId ln ts).questions = [] := rfl

theorem buildQuiz_num_gen (env : QuizEnv) (o : GenOracle) (ln : Option String)
    (sa : StdArg) (d nq : Nat) (stds prev : List String) (p : Passage) :
    (buildQuiz env o ln sa d nq stds prev p).metadata.num_questions_generated =
    (buildQuiz env o ln sa d nq stds prev p).questions.length := by
  simp only [buildQuiz]
  cases o.genResult (distributeQuestions nq d stds prev o.distTape) with
  | error e => simp [formatQuizOutput]
  | ok qs => rfl

theorem quizAfterStandards_num_gen (env : QuizEnv) (o : GenOracle)
    (ln : Option String) (sa : StdArg) (d nq : Nat) (stds : List String) :
    (quizAfterStandards env o ln sa d nq stds).metadata.num_questions_generated =
    (quizAfterStandards env o ln sa d nq stds).questions.length := by
  simp only [quizAfterStandards]
  split
  · apply buildQuiz_num_gen
  · split
    · rfl
    · apply buildQuiz_num_gen

/-- Claim C2 (amended): `generate_quiz` raises an uncaught `TypeError`
from the pre-`try` entry log exactly when `lesson_name` is falsy and
`standard_id` is `None` or a list (refuting the claim's "never raises";
see the counterexample); on every other input it returns a quiz document
whose `num_questions_generated` metadata equals the length of its
question list, and a request with a truthy lesson name, no (truthy)
standard argument and no standards recorded for that lesson returns the
fallback quiz: `metadata.error` is the fallback message,
`metadata.lesson_name` is the requested lesson name, and the question
list is empty. -/
theorem c2_generate_quiz_fallback (env : QuizEnv) (o : GenOracle)
    (ln : Option String) (sa : StdArg) (d nq : Nat) :
    (generateQuiz env o ln sa d nq = .error entryLogMsg ↔
      entryLogRaises ln sa = true) ∧
    (entryLogRaises ln sa = false →
      generateQuiz env o ln sa d nq = .ok (generateQuizBody env o ln sa d nq)) ∧
    ((generateQuizBody env o ln sa d nq).metadata.num_questions_generated =
      (generateQuizBody env o ln sa d nq).questions.length) ∧
    (∀ s : String, ln = some s → s ≠ "" → truthyStdArg sa = false →
      (alFind env.standardsByLesson s).getD [] = [] →
      generateQuiz env o ln sa d nq =
        .ok (handleMissingData env .nullV (some s) o.timestamp) ∧
      (generateQuizBody env o ln sa d nq).metadata.error = some fallbackMsg ∧
      (generateQuizBody env o ln sa d nq).metadata.lesson_name = some s ∧
      (generateQuizBody env o ln sa d nq).questions = []) := by
  refine ⟨?_, ?_, ?_, ?_⟩
  · by_cases h : entryLogRaises ln sa <;> simp [generateQuiz, h]
  · intro h
    simp [generateQuiz, h]
  · simp only [generateQuizBody]
    split
    · split
      · rfl
      · apply quizAfterStandards_num_gen
    · split
      · rfl
      · apply quizAfterStandards_num_gen
  · intro s hln hs hsa hempty
    subst hln
    have hcond : (truthyLn (some s) && !truthyStdArg sa) = true := by
      simp [truthyLn, hs, hsa]
    have hsafe : entryLogRaises (some s) sa = false := by
      simp [entryLogRaises, truthyLn, hs]
    have heq : generateQuizBody env o (some s) sa d nq =
        handleMissingData env .nullV (some s) o.timestamp := by
      simp only [generateQuizBody, hcond, if_true, Option.getD_some, hempty]
    refine ⟨?_, ?_, ?_, ?_⟩
    · simp [generateQuiz, hsafe, heq]
    · rw [heq]; rfl
    · rw [heq]; rfl
    · rw [heq]; rfl

/-- Witness for `c2_generate_quiz_fallback`: a request for the unknown
lesson `L2` against an index that only knows `L1`. -/
theorem c2_generate_quiz_fallback_witness :
    generateQuiz envC2 oracleC2 (some "L2") .noneA 1 6 =
      .ok (handleMissingData envC2 .nullV (some "L2") "ts") ∧
    (generateQuizBody envC2 oracleC2 (some "L2") .noneA 1 6).metadata.error =
      some fallbackMsg ∧
    (generateQuizBody envC2 oracleC2 (some "L2") .noneA 1 6).metadata.lesson_name =
      some "L2" ∧
    (generateQuizBody envC2 oracleC2 (some "L2") .noneA 1 6).questions = [] ∧
    (generateQuizBody envC2 oracleC2 (some "L2") .noneA 1 6).metadata.num_questions_generated =
      (generateQuizBody envC2 oracleC2 (some "L2") .noneA 1 6).questions.length := by
  have h := c2_generate_quiz_fallback envC2 oracleC2 (some "L2") StdArg.noneA 1 6
  have h2 := h.2.2.2 "L2" rfl (by decide) rfl rfl
  exact ⟨h2.1, h2.2.1, h2.2.2.1, h2.2.2.2, h.2.2.1⟩

/-- Claim C2, counterexample to the claim as stated: with a falsy
`lesson_name` and a `standard_id` that is `None` or a list, the entry
log at src/main.py line 391 concatenates `'Standard: ' + standard_id`
before the `try:` block and raises an uncaught `TypeError` — the call
raises instead of returning a quiz document. -/
theorem c2_counterexample_entry_log_type_error :
    generateQuiz envC2 oracleC2 none .noneA 1 6 = .error entryLogMsg ∧
    generateQuiz envC2 oracleC2 none (.listA ["A"]) 1 6 = .error entryLogMsg ∧
    generateQuiz envC2 oracleC2 (some "") .noneA 1 6 = .error entryLogMsg :=
  ⟨rfl, rfl, rfl⟩
